import Mathlib

/-!
Verification of the routecraft core: graph store (src/graph.c), A* search
engine and binary min-heap priority queue (src/astar.c), and the binary
persistence format.

Modelling conventions for the shallow embedding:
* C `float` values (coordinates, weights, scores) are embedded as `ℚ`.
  The `FLT_MAX` sentinel used by the search to mean "infinity" (the code's
  own comment says "Initialize scores to infinity") is embedded as `⊤` in
  `WithTop ℚ`.
* The C library function `sqrtf`, used only by the Euclidean heuristic, is
  passed as an abstract parameter `sqrtf : ℚ → ℚ`; no claim depends on its
  value.
* Fixed-capacity C arrays are embedded as total functions from `Nat`;
  node ids keep the C type `int` (embedded as `Int`) so that the
  out-of-range checks (`id < 0`, `id >= nodeCount`) are meaningful.
* Fallible heap-allocating calls (`malloc`) are assumed to succeed; the
  allocation-failure early returns are not modelled.
* Mutating C functions are embedded as state-passing functions returning
  the C return value together with the updated structure.
-/

/-- MAX_NODES from graph.h. -/
def MAX_NODES : Nat := 1000

/-- MAX_EDGES_PER_NODE from graph.h. -/
def MAX_EDGES_PER_NODE : Nat := 20

/-- Node structure from graph.h: id, name, x, y, active. -/
@[ext]
structure Node where
  id : Int
  name : String
  x : ℚ
  y : ℚ
  active : Bool
deriving DecidableEq

/-- Edge structure from graph.h: from, to, weight, active. -/
@[ext]
structure Edge where
  «from» : Int
  «to» : Int
  weight : ℚ
  active : Bool
deriving DecidableEq

/-- The zero-filled Node produced by memset in graph_init. -/
def defaultNode : Node := ⟨0, "", 0, 0, false⟩

/-- The zero-filled Edge produced by memset in graph_init. -/
def defaultEdge : Edge := ⟨0, 0, 0, false⟩

/-- Graph structure from graph.h: nodes array, nodeCount, per-source
adjacency arrays `edges`, and `edgeCounts`.  The fixed arrays are embedded
as total functions. -/
@[ext]
structure Graph where
  nodes : Nat → Node
  nodeCount : Int
  edges : Nat → Nat → Edge
  edgeCounts : Nat → Int

/-- graph_init from graph.c: nodeCount 0 and zeroed arrays. -/
def graph_init : Graph :=
  { nodes := fun _ => defaultNode
    nodeCount := 0
    edges := fun _ _ => defaultEdge
    edgeCounts := fun _ => 0 }

/-- graph_add_node from graph.c.  Returns the assigned id (or -1 at
capacity) together with the updated graph. -/
def graph_add_node (g : Graph) (name : String) (x y : ℚ) : Int × Graph :=
  if (MAX_NODES : Int) ≤ g.nodeCount then (-1, g)
  else
    let id := g.nodeCount.toNat
    (g.nodeCount,
      { g with
          nodes := Function.update g.nodes id ⟨g.nodeCount, name, x, y, true⟩
          nodeCount := g.nodeCount + 1 })

/-- graph_remove_node from graph.c: range check, deactivate the node,
zero its adjacency count, and deactivate every other node's edges whose
`to` equals the removed id. -/
def graph_remove_node (g : Graph) (nodeId : Int) : Bool × Graph :=
  if nodeId < 0 ∨ g.nodeCount ≤ nodeId then (false, g)
  else
    let n := nodeId.toNat
    (true,
      { g with
          nodes := Function.update g.nodes n { g.nodes n with active := false }
          edgeCounts := Function.update g.edgeCounts n 0
          edges := fun i j =>
            if i ≠ n ∧ i < g.nodeCount.toNat ∧ j < (g.edgeCounts i).toNat ∧
                (g.edges i j).«to» = nodeId
            then { g.edges i j with active := false }
            else g.edges i j })

/-- graph_has_edge from graph.c: linear scan of the source's adjacency
list for an active edge with the given target. -/
def graph_has_edge (g : Graph) (f t : Int) : Bool :=
  if f < 0 ∨ g.nodeCount ≤ f then false
  else
    (List.range (g.edgeCounts f.toNat).toNat).any fun i =>
      (g.edges f.toNat i).«to» == t && (g.edges f.toNat i).active

/-- graph_add_edge from graph.c: range checks on both endpoints, adjacency
capacity check, duplicate-active-edge check, then append the edge. -/
def graph_add_edge (g : Graph) (f t : Int) (weight : ℚ) : Bool × Graph :=
  if f < 0 ∨ g.nodeCount ≤ f then (false, g)
  else if t < 0 ∨ g.nodeCount ≤ t then (false, g)
  else if (MAX_EDGES_PER_NODE : Int) ≤ g.edgeCounts f.toNat then (false, g)
  else if graph_has_edge g f t then (false, g)
  else
    let idx := (g.edgeCounts f.toNat).toNat
    (true,
      { g with
          edges := fun i j =>
            if i = f.toNat ∧ j = idx then ⟨f, t, weight, true⟩ else g.edges i j
          edgeCounts :=
            Function.update g.edgeCounts f.toNat (g.edgeCounts f.toNat + 1) })

/-- graph_remove_edge from graph.c: deactivate the first matching active
edge of the source's adjacency list. -/
def graph_remove_edge (g : Graph) (f t : Int) : Bool × Graph :=
  if f < 0 ∨ g.nodeCount ≤ f then (false, g)
  else
    match (List.range (g.edgeCounts f.toNat).toNat).find? (fun i =>
        (g.edges f.toNat i).«to» == t && (g.edges f.toNat i).active) with
    | none => (false, g)
    | some i =>
      (true,
        { g with
            edges := fun a b =>
              if a = f.toNat ∧ b = i then { g.edges a b with active := false }
              else g.edges a b })

/-- graph_get_neighbors from graph.c.  The output array is embedded as the
returned list; the C return value is its length.  The loop stops once
`count` reaches `maxNeighbors`. -/
def graph_get_neighbors (g : Graph) (nodeId : Int) (maxNeighbors : Int) :
    Int × List Int :=
  if nodeId < 0 ∨ g.nodeCount ≤ nodeId then (0, [])
  else
    let n := nodeId.toNat
    let acc := (List.range (g.edgeCounts n).toNat).foldl
      (fun acc i =>
        if (acc.length : Int) < maxNeighbors then
          if (g.edges n i).active &&
              (g.nodes (g.edges n i).«to».toNat).active then
            acc ++ [(g.edges n i).«to»]
          else acc
        else acc) []
    ((acc.length : Int), acc)

/-- PathResult from graph.h.  The owned `nodes` buffer is embedded as a
list; `length`, `totalCost`, `found` are the remaining fields.  Scores are
`WithTop ℚ` (see the header comment). -/
@[ext]
structure PathResult where
  nodes : List Int
  length : Int
  totalCost : WithTop ℚ
  found : Bool
deriving DecidableEq

/-- path_result_create from graph.c: the zeroed empty result. -/
def path_result_create : PathResult :=
  { nodes := [], length := 0, totalCost := 0, found := false }

/-- PQNode from astar.c: a heap entry (nodeId, fScore). -/
@[ext]
structure PQNode where
  nodeId : Int
  fScore : WithTop ℚ
deriving DecidableEq

/-- PriorityQueue from astar.c.  The backing array's live prefix (the
first `size` slots) is embedded as the list `nodes`; slots beyond `size`
are uninitialized in C and are not represented. -/
@[ext]
structure PriorityQueue where
  nodes : List PQNode
  capacity : Nat

/-- Array read used by the heap routines, with the C garbage value beyond
the live region embedded as a default entry. -/
def pqGet (l : List PQNode) (i : Nat) : PQNode := l.getD i ⟨0, ⊤⟩

/-- pq_swap from astar.c, applied to array positions i and j. -/
def pq_swap (l : List PQNode) (i j : Nat) : List PQNode :=
  (l.set i (pqGet l j)).set j (pqGet l i)

/-- pq_heapify_up from astar.c: sift the entry at idx towards the root
while it is strictly smaller than its parent. -/
def pq_heapify_up (l : List PQNode) (idx : Nat) : List PQNode :=
  if h : 0 < idx then
    let parent := (idx - 1) / 2
    if (pqGet l idx).fScore < (pqGet l parent).fScore then
      pq_heapify_up (pq_swap l idx parent) ((idx - 1) / 2)
    else l
  else l
termination_by idx
decreasing_by exact Nat.lt_of_le_of_lt (Nat.div_le_self _ 2) (by omega)

/-- Index of the smallest among idx and its in-range children, computed by
the two comparisons at the top of pq_heapify_down in astar.c. -/
def pqSmallest (l : List PQNode) (idx : Nat) : Nat :=
  let left := 2 * idx + 1
  let right := 2 * idx + 2
  let s1 := if left < l.length ∧ (pqGet l left).fScore < (pqGet l idx).fScore
    then left else idx
  if right < l.length ∧ (pqGet l right).fScore < (pqGet l s1).fScore
    then right else s1

theorem pqSmallest_ne (l : List PQNode) (idx : Nat)
    (h : pqSmallest l idx ≠ idx) :
    idx < pqSmallest l idx ∧ pqSmallest l idx < l.length := by
  simp only [pqSmallest] at h ⊢
  split_ifs at h ⊢ <;> omega

theorem pq_swap_length (l : List PQNode) (i j : Nat) :
    (pq_swap l i j).length = l.length := by
  simp [pq_swap]

/-- pq_heapify_down from astar.c: sift the entry at idx down towards the
leaves, swapping with the smaller child while one is strictly smaller. -/
def pq_heapify_down (l : List PQNode) (idx : Nat) : List PQNode :=
  if h : pqSmallest l idx ≠ idx then
    pq_heapify_down (pq_swap l idx (pqSmallest l idx)) (pqSmallest l idx)
  else l
termination_by l.length - idx
decreasing_by
  rw [pq_swap_length]
  have := pqSmallest_ne l idx h
  omega

/-- pq_push from astar.c: capacity check, append at the end, sift up.
Returns the C boolean result together with the updated queue. -/
def pq_push (pq : PriorityQueue) (nodeId : Int) (fScore : WithTop ℚ) :
    Bool × PriorityQueue :=
  if pq.capacity ≤ pq.nodes.length then (false, pq)
  else
    (true,
      { pq with
          nodes := pq_heapify_up (pq.nodes ++ [⟨nodeId, fScore⟩])
            pq.nodes.length })

/-- pq_pop from astar.c: return the root, move the last entry to the root
slot, shrink, sift down.  Failure (empty queue) is `none`. -/
def pq_pop (pq : PriorityQueue) :
    Option (Int × WithTop ℚ × PriorityQueue) :=
  match pq.nodes with
  | [] => none
  | root :: rest =>
    if rest.isEmpty then some (root.nodeId, root.fScore, { pq with nodes := [] })
    else
      let last := pqGet pq.nodes (pq.nodes.length - 1)
      some (root.nodeId, root.fScore,
        { pq with
            nodes := pq_heapify_down (pq.nodes.dropLast.set 0 last) 0 })

/-- pq_empty from astar.c. -/
def pq_empty (pq : PriorityQueue) : Bool := pq.nodes.length == 0

/-- pq_decrease_priority from astar.c: linear scan for the first entry
with the given nodeId; lower its key and sift up if the new key is
strictly smaller, do nothing otherwise; push when absent (the C code
discards that inner push's boolean result). -/
def pq_decrease_priority (pq : PriorityQueue) (nodeId : Int)
    (newFScore : WithTop ℚ) : PriorityQueue :=
  match pq.nodes.findIdx? (fun nd => nd.nodeId == nodeId) with
  | some i =>
    if newFScore < (pqGet pq.nodes i).fScore then
      { pq with
          nodes := pq_heapify_up
            (pq.nodes.set i ⟨(pqGet pq.nodes i).nodeId, newFScore⟩) i }
    else pq
  | none => (pq_push pq nodeId newFScore).2

/-- HeuristicType from astar.h. -/
inductive HeuristicType where
  | euclidean
  | manhattan
  | chebyshev
  | zero
deriving DecidableEq

/-- AStarConfig from astar.h. -/
structure AStarConfig where
  heuristic : HeuristicType
  heuristicWeight : ℚ
  allowDiagonal : Bool
deriving DecidableEq

/-- AStarStats from astar.h.  The wall-clock field searchTimeMs is real
time and is not modelled (kept constant 0). -/
structure AStarStats where
  nodesExplored : Int
  nodesInOpenSet : Int
  maxOpenSetSize : Int
deriving DecidableEq

/-- astar_heuristic from astar.c.  The C library sqrtf is the abstract
parameter. -/
def astar_heuristic (sqrtf : ℚ → ℚ) (a b : Node) (t : HeuristicType) : ℚ :=
  let dx := |b.x - a.x|
  let dy := |b.y - a.y|
  match t with
  | .euclidean => sqrtf (dx * dx + dy * dy)
  | .manhattan => dx + dy
  | .chebyshev => max dx dy
  | .zero => 0

/-- astar_default_config from astar.c. -/
def astar_default_config : AStarConfig :=
  { heuristic := .euclidean, heuristicWeight := 1, allowDiagonal := true }

/-- The backward walk of reconstruct_path in astar.c:
while (current != startId and current != -1 and length < nodeCount)
advance along cameFrom; returns the final (current, length). -/
def walk_back (cameFrom : Nat → Int) (startId : Int) (nodeCount : Nat) :
    Int → Nat → Int × Nat
  | current, length =>
    if current ≠ startId ∧ current ≠ -1 ∧ length < nodeCount then
      walk_back cameFrom startId nodeCount (cameFrom current.toNat) (length + 1)
    else (current, length)
termination_by current length => nodeCount - length

/-- The fill loop of reconstruct_path in astar.c: the length-long chain of
cameFrom predecessors ending at current, in start-to-goal order. -/
def chain_list (cameFrom : Nat → Int) : Nat → Int → List Int
  | 0, _ => []
  | k + 1, current => chain_list cameFrom k (cameFrom current.toNat) ++ [current]

/-- reconstruct_path from astar.c. -/
def reconstruct_path (cameFrom : Nat → Int) (gScore : Nat → WithTop ℚ)
    (startId goalId : Int) (nodeCount : Nat) : PathResult :=
  let w := walk_back cameFrom startId nodeCount goalId 0
  let length := if w.1 = startId then w.2 + 1 else w.2
  if w.1 ≠ startId then path_result_create
  else
    { nodes := chain_list cameFrom length goalId
      length := (length : Int)
      totalCost := gScore goalId.toNat
      found := true }

/-- The working state of astar_find_path in astar.c: the score arrays,
predecessor array, closed/open membership flags, the open-set heap, and
the statistics counters.  The fields after the separator comment are ghost
instrumentation recording the run's history; they change nothing the C
code computes and exist only to state claims about the run:
pushedIds (nodeId argument of every pq_push call, in order),
pushAllOk (conjunction of every pq_push boolean result, including the ones
the C code discards), decreaseAllFound (true while every
pq_decrease_priority call located its nodeId in the heap), and closedList
(the ids marked closed, in order). -/
@[ext]
structure AStarState where
  gScore : Nat → WithTop ℚ
  fScore : Nat → WithTop ℚ
  cameFrom : Nat → Int
  inClosedSet : Nat → Bool
  inOpenSet : Nat → Bool
  openSet : PriorityQueue
  nodesExplored : Int
  nodesInOpenSet : Int
  maxOpenSetSize : Int
  pushedIds : List Int
  pushAllOk : Bool
  decreaseAllFound : Bool
  closedList : List Nat

/-- The neighbor-relaxation body of the main A* loop in astar.c, for the
adjacency slot i of the node currentId. -/
def astar_relax (sqrtf : ℚ → ℚ) (g : Graph) (cfg : AStarConfig)
    (goalId currentId : Int) (st : AStarState) (i : Nat) : AStarState :=
  let edge := g.edges currentId.toNat i
  if edge.active = false then st
  else
    let neighborId := edge.«to»
    if (g.nodes neighborId.toNat).active = false then st
    else if st.inClosedSet neighborId.toNat then st
    else
      let tentativeG := st.gScore currentId.toNat + (edge.weight : WithTop ℚ)
      if tentativeG < st.gScore neighborId.toNat then
        let h := (astar_heuristic sqrtf (g.nodes neighborId.toNat)
          (g.nodes goalId.toNat) cfg.heuristic) * cfg.heuristicWeight
        let f := tentativeG + (h : WithTop ℚ)
        let st1 := { st with
          cameFrom := Function.update st.cameFrom neighborId.toNat currentId
          gScore := Function.update st.gScore neighborId.toNat tentativeG
          fScore := Function.update st.fScore neighborId.toNat f }
        if st1.inOpenSet neighborId.toNat = false then
          let pr := pq_push st1.openSet neighborId f
          { st1 with
              openSet := pr.2
              inOpenSet := Function.update st1.inOpenSet neighborId.toNat true
              maxOpenSetSize :=
                if st1.maxOpenSetSize < (pr.2.nodes.length : Int)
                then (pr.2.nodes.length : Int) else st1.maxOpenSetSize
              pushedIds := st1.pushedIds ++ [neighborId]
              pushAllOk := st1.pushAllOk && pr.1 }
        else
          { st1 with
              openSet := pq_decrease_priority st1.openSet neighborId f
              decreaseAllFound := st1.decreaseAllFound &&
                (st1.openSet.nodes.findIdx? (fun nd => nd.nodeId == neighborId)).isSome }
      else st

/-- One iteration of the main while loop of astar_find_path in astar.c.
Returns `Sum.inr` with the final (result, state) when the loop ends
(queue exhausted, or goal popped and the path reconstructed), and
`Sum.inl` with the state to continue from otherwise. -/
def astar_step (sqrtf : ℚ → ℚ) (g : Graph) (cfg : AStarConfig)
    (startId goalId : Int) (st : AStarState) :
    AStarState ⊕ (PathResult × AStarState) :=
  match pq_pop st.openSet with
  | none => Sum.inr (path_result_create, st)
  | some (currentId, _, openSet1) =>
    let st1 := { st with
      openSet := openSet1
      inOpenSet := Function.update st.inOpenSet currentId.toNat false
      nodesExplored := st.nodesExplored + 1 }
    if currentId == goalId then
      Sum.inr
        (reconstruct_path st1.cameFrom st1.gScore startId goalId g.nodeCount.toNat,
          { st1 with nodesInOpenSet := (st1.openSet.nodes.length : Int) })
    else if st1.inClosedSet currentId.toNat then Sum.inl st1
    else
      let st2 := { st1 with
        inClosedSet := Function.update st1.inClosedSet currentId.toNat true
        closedList := st1.closedList ++ [currentId.toNat] }
      Sum.inl ((List.range (g.edgeCounts currentId.toNat).toNat).foldl
        (astar_relax sqrtf g cfg goalId currentId) st2)

/-- The main while loop of astar_find_path, driven by fuel.  The C loop
needs at most nodeCount iterations (each iteration pops one entry and
every node is pushed at most once); astar_find_path supplies fuel
nodeCount + 1, which is proved sufficient where needed. -/
def astar_loop (sqrtf : ℚ → ℚ) (g : Graph) (cfg : AStarConfig)
    (startId goalId : Int) : Nat → AStarState → PathResult × AStarState
  | 0, st => (path_result_create, st)
  | fuel + 1, st =>
    match astar_step sqrtf g cfg startId goalId st with
    | Sum.inl st1 => astar_loop sqrtf g cfg startId goalId fuel st1
    | Sum.inr r => r

/-- The initial working state built by astar_find_path before the main
loop: scores infinity, cameFrom -1, flag arrays false, the start node's
scores set, and the start pushed into a heap of capacity nodeCount. -/
def astar_init (sqrtf : ℚ → ℚ) (g : Graph) (cfg : AStarConfig)
    (startId goalId : Int) : AStarState :=
  let h := (astar_heuristic sqrtf (g.nodes startId.toNat)
    (g.nodes goalId.toNat) cfg.heuristic) * cfg.heuristicWeight
  let gScore0 : Nat → WithTop ℚ := Function.update (fun _ => ⊤) startId.toNat 0
  let fScore0 : Nat → WithTop ℚ :=
    Function.update (fun _ => ⊤) startId.toNat (h : WithTop ℚ)
  let pq0 : PriorityQueue := { nodes := [], capacity := g.nodeCount.toNat }
  let pr := pq_push pq0 startId (fScore0 startId.toNat)
  { gScore := gScore0
    fScore := fScore0
    cameFrom := fun _ => -1
    inClosedSet := fun _ => false
    inOpenSet := Function.update (fun _ => false) startId.toNat true
    openSet := pr.2
    nodesExplored := 0
    nodesInOpenSet := 0
    maxOpenSetSize := 1
    pushedIds := [startId]
    pushAllOk := pr.1
    decreaseAllFound := true
    closedList := [] }

/-- astar_find_path from astar.c.  A NULL config is `none`; the returned
statistics correspond to the stats out-parameter (searchTimeMs omitted,
see the header comment). -/
def astar_find_path (sqrtf : ℚ → ℚ) (g : Graph) (startId goalId : Int)
    (config : Option AStarConfig) : PathResult × AStarStats :=
  if startId < 0 ∨ goalId < 0 ∨ g.nodeCount ≤ startId ∨ g.nodeCount ≤ goalId
  then (path_result_create, ⟨0, 0, 0⟩)
  else
    let cfg := config.getD astar_default_config
    let st0 := astar_init sqrtf g cfg startId goalId
    let r := astar_loop sqrtf g cfg startId goalId (g.nodeCount.toNat + 1) st0
    (r.1, ⟨r.2.nodesExplored, r.2.nodesInOpenSet, r.2.maxOpenSetSize⟩)

/-- One fwrite/fread unit of the persistence format of graph.c: the
8-byte magic, an int32, the 128-byte null-padded name, a float32, or the
one-byte bool.  The byte stream is embedded at field granularity; a
truncated file is a truncated list, and a read at end of stream behaves
like fread at EOF (fails, destination unchanged). -/
inductive FileField where
  | fMagic (s : String)
  | fInt (n : Int)
  | fName (s : String)
  | fFloat (q : ℚ)
  | fBool (b : Bool)
deriving DecidableEq

/-- Checked read of the magic field (the first 8 bytes). -/
def readMagic : List FileField → Option String × List FileField
  | .fMagic s :: rest => (some s, rest)
  | l => (none, l)

/-- Checked read of one int field (fread of one int32). -/
def readInt : List FileField → Option Int × List FileField
  | .fInt n :: rest => (some n, rest)
  | l => (none, l)

/-- Checked read of one name field (fread of 128 chars). -/
def readName : List FileField → Option String × List FileField
  | .fName s :: rest => (some s, rest)
  | l => (none, l)

/-- Checked read of one float field. -/
def readFloat : List FileField → Option ℚ × List FileField
  | .fFloat q :: rest => (some q, rest)
  | l => (none, l)

/-- Checked read of one bool field. -/
def readBool : List FileField → Option Bool × List FileField
  | .fBool b :: rest => (some b, rest)
  | l => (none, l)

/-- The five fwrite calls of graph_save for one node record. -/
def save_node (nd : Node) : List FileField :=
  [.fInt nd.id, .fName nd.name, .fFloat nd.x, .fFloat nd.y, .fBool nd.active]

/-- The four fwrite calls of graph_save for one edge record. -/
def save_edge (e : Edge) : List FileField :=
  [.fInt e.«from», .fInt e.«to», .fFloat e.weight, .fBool e.active]

/-- The node records of the first n slots, as written by graph_save. -/
def save_nodes_upto (g : Graph) (n : Nat) : List FileField :=
  ((List.range n).map fun i => save_node (g.nodes i)).flatten

/-- The capacity-sized edge-count table written by graph_save
(always MAX_NODES entries). -/
def save_edgeCounts (g : Graph) : List FileField :=
  (List.range MAX_NODES).map fun i => .fInt (g.edgeCounts i)

/-- The edge records of the first n source slots, as written by
graph_save (per source, edgeCounts[i] records). -/
def save_edges_upto (g : Graph) (n : Nat) : List FileField :=
  ((List.range n).map fun i =>
    ((List.range (g.edgeCounts i).toNat).map fun j =>
      save_edge (g.edges i j)).flatten).flatten

/-- graph_save from graph.c: magic, node count, node records, the
capacity-sized edge-count table, then the edge records. -/
def graph_save (g : Graph) : List FileField :=
  .fMagic "RCGRAPH1" :: .fInt g.nodeCount ::
    (save_nodes_upto g g.nodeCount.toNat ++ save_edgeCounts g ++
      save_edges_upto g g.nodeCount.toNat)

/-- The five unchecked freads of graph_load for one node record: each
failed read leaves the corresponding destination field unchanged. -/
def load_node (nd : Node) (l : List FileField) : Node × List FileField :=
  let r1 := readInt l
  let r2 := readName r1.2
  let r3 := readFloat r2.2
  let r4 := readFloat r3.2
  let r5 := readBool r4.2
  ({ id := r1.1.getD nd.id
     name := r2.1.getD nd.name
     x := r3.1.getD nd.x
     y := r4.1.getD nd.y
     active := r5.1.getD nd.active }, r5.2)

/-- The four unchecked freads of graph_load for one edge record. -/
def load_edge (e : Edge) (l : List FileField) : Edge × List FileField :=
  let r1 := readInt l
  let r2 := readInt r1.2
  let r3 := readFloat r2.2
  let r4 := readBool r3.2
  ({ «from» := r1.1.getD e.«from»
     «to» := r2.1.getD e.«to»
     weight := r3.1.getD e.weight
     active := r4.1.getD e.active }, r4.2)

/-- The node-reading loop of graph_load over the first cnt slots. -/
def load_nodes (cnt : Nat) (nodes : Nat → Node) (l : List FileField) :
    (Nat → Node) × List FileField :=
  (List.range cnt).foldl
    (fun acc i =>
      let r := load_node (acc.1 i) acc.2
      (Function.update acc.1 i r.1, r.2)) (nodes, l)

/-- The edge-count-reading loop of graph_load: MAX_NODES unchecked int
reads (fread of a partial array fills the elements it could read). -/
def load_edgeCounts (counts : Nat → Int) (l : List FileField) :
    (Nat → Int) × List FileField :=
  (List.range MAX_NODES).foldl
    (fun acc i =>
      let r := readInt acc.2
      (Function.update acc.1 i (r.1.getD (acc.1 i)), r.2)) (counts, l)

/-- The edge-reading inner loop of graph_load for one source slot. -/
def load_edges_row (i : Nat) (cnt : Nat) (edges : Nat → Nat → Edge)
    (l : List FileField) : (Nat → Nat → Edge) × List FileField :=
  (List.range cnt).foldl
    (fun acc j =>
      let r := load_edge (acc.1 i j) acc.2
      ((fun a b => if a = i ∧ b = j then r.1 else acc.1 a b), r.2)) (edges, l)

/-- The edge-reading loops of graph_load over the first cnt source slots,
using the loaded edge counts. -/
def load_edges (cnt : Nat) (counts : Nat → Int) (edges : Nat → Nat → Edge)
    (l : List FileField) : (Nat → Nat → Edge) × List FileField :=
  (List.range cnt).foldl
    (fun acc i => load_edges_row i (counts i).toNat acc.1 acc.2) (edges, l)

/-- graph_load from graph.c: verify the magic (destination untouched on
mismatch or short read), reset the graph, read the node count (checked),
then read node records, edge counts and edge records with unchecked
freads, and return success. -/
def graph_load (g : Graph) (file : List FileField) : Bool × Graph :=
  let m := readMagic file
  match m.1 with
  | none => (false, g)
  | some s =>
    if s ≠ "RCGRAPH1" then (false, g)
    else
      let g0 := graph_init
      let c := readInt m.2
      match c.1 with
      | none => (false, g0)
      | some cnt =>
        let rn := load_nodes cnt.toNat g0.nodes c.2
        let rc := load_edgeCounts g0.edgeCounts rn.2
        let re := load_edges cnt.toNat rc.1 g0.edges rc.2
        (true,
          { nodes := rn.1
            nodeCount := cnt
            edges := re.1
            edgeCounts := rc.1 })

/-!
Concrete graphs used by counterexamples and witnesses.
-/

/-- A graph with a single node "A" at the origin. -/
def exGraphA : Graph := (graph_add_node graph_init "A" 0 0).2

/-- exGraphA with its only node removed (slot 0 inactive, nodeCount 1). -/
def exGraphARem : Graph := (graph_remove_node exGraphA 0).2

/-- A graph with nodes "A" (id 0) and "B" (id 1). -/
def exGraphAB : Graph :=
  (graph_add_node (graph_add_node graph_init "A" 0 0).2 "B" 1 0).2

/-- exGraphAB with node 1 removed (slot 1 inactive, nodeCount 2). -/
def exGraphABRem : Graph := (graph_remove_node exGraphAB 1).2

/-- C2 counterexample: node 0 of exGraphARem is in range and inactive, so
the claim demands found=false, but astar_find_path(0,0) performs no
active-flag check and returns found=true with a length-1 path. -/
theorem C2_counterexample :
    (0:Int) < exGraphARem.nodeCount ∧ (exGraphARem.nodes 0).active = false ∧
      (astar_find_path (fun _ => 0) exGraphARem 0 0 none).1.found = true ∧
      (astar_find_path (fun _ => 0) exGraphARem 0 0 none).1.length = 1 := by
  with_unfolding_all decide

/-- C2 (amended): astar_find_path returns immediately the empty result
(found=false, length 0, totalCost 0, no nodes) whenever the start id or
the goal id is out of range; the nodes' active flags are not checked. -/
theorem C2_out_of_range_empty (sqrtf : ℚ → ℚ) (g : Graph) (s t : Int)
    (cfg : Option AStarConfig)
    (h : s < 0 ∨ t < 0 ∨ g.nodeCount ≤ s ∨ g.nodeCount ≤ t) :
    (astar_find_path sqrtf g s t cfg).1.found = false ∧
      (astar_find_path sqrtf g s t cfg).1.length = 0 ∧
      (astar_find_path sqrtf g s t cfg).1.totalCost = 0 ∧
      (astar_find_path sqrtf g s t cfg).1.nodes = [] := by
  unfold astar_find_path
  rw [if_pos h]
  exact ⟨rfl, rfl, rfl, rfl⟩

/-- C2 witness: the amended theorem applied to a goal id out of range. -/
theorem C2_out_of_range_empty_witness :
    ((1:Int) < 0 ∨ (5:Int) < 0 ∨ exGraphA.nodeCount ≤ 1 ∨
        exGraphA.nodeCount ≤ 5) ∧
      (astar_find_path (fun _ => 0) exGraphA 1 5 none).1.found = false :=
  ⟨by with_unfolding_all decide,
    (C2_out_of_range_empty (fun _ => 0) exGraphA 1 5 none
      (by with_unfolding_all decide)).1⟩

/-- C3 counterexample: node 0 of exGraphARem is in range and already
inactive; the claim demands graph_remove_node to return failure, but it
returns true. -/
theorem C3_counterexample :
    (0:Int) < exGraphARem.nodeCount ∧ (exGraphARem.nodes 0).active = false ∧
      (graph_remove_node exGraphARem 0).1 = true := by
  with_unfolding_all decide

/-- C3 (amended): graph_remove_node on an in-range but already-inactive
id returns true (success, not failure); it re-runs the deactivation, so
the graph is left unchanged provided the node's adjacency count is
already 0 and every edge into it is already inactive (the state left by
a prior graph_remove_node with no later mutations). -/
theorem C3_remove_inactive (g : Graph) (x : Int)
    (h0 : 0 ≤ x) (h1 : x < g.nodeCount)
    (h2 : (g.nodes x.toNat).active = false)
    (h3 : g.edgeCounts x.toNat = 0)
    (h4 : ∀ i < g.nodeCount.toNat, ∀ j < (g.edgeCounts i).toNat,
      (g.edges i j).«to» = x → (g.edges i j).active = false) :
    (graph_remove_node g x).1 = true ∧ (graph_remove_node g x).2 = g := by
  have hc : ¬(x < 0 ∨ g.nodeCount ≤ x) := by omega
  unfold graph_remove_node
  rw [if_neg hc]
  refine ⟨rfl, ?_⟩
  have hnodes : Function.update g.nodes x.toNat
      { g.nodes x.toNat with active := false } = g.nodes := by
    funext i
    rw [Function.update_apply]
    split_ifs with hi
    · subst hi
      rw [← h2]
    · rfl
  have hedges : (fun i j =>
      if i ≠ x.toNat ∧ i < g.nodeCount.toNat ∧ j < (g.edgeCounts i).toNat ∧
          (g.edges i j).«to» = x
      then { g.edges i j with active := false } else g.edges i j) = g.edges := by
    funext i j
    split_ifs with hij
    · rw [← h4 i hij.2.1 j hij.2.2.1 hij.2.2.2]
    · rfl
  have hcounts : Function.update g.edgeCounts x.toNat 0 = g.edgeCounts := by
    funext i
    rw [Function.update_apply]
    split_ifs with hi
    · subst hi; omega
    · rfl
  show ({ nodes := Function.update g.nodes x.toNat
            { g.nodes x.toNat with active := false }
          nodeCount := g.nodeCount
          edges := fun i j =>
            if i ≠ x.toNat ∧ i < g.nodeCount.toNat ∧
                j < (g.edgeCounts i).toNat ∧ (g.edges i j).«to» = x
            then { g.edges i j with active := false } else g.edges i j
          edgeCounts := Function.update g.edgeCounts x.toNat 0 } : Graph) = g
  rw [hnodes, hedges, hcounts]

/-- C3 witness: the amended theorem applied to exGraphARem at id 0. -/
theorem C3_remove_inactive_witness :
    (exGraphARem.nodes 0).active = false ∧
      (graph_remove_node exGraphARem 0).1 = true :=
  ⟨by with_unfolding_all decide,
    (C3_remove_inactive exGraphARem 0 (by decide)
      (by with_unfolding_all decide) (by with_unfolding_all decide)
      (by with_unfolding_all decide)
      (by with_unfolding_all decide)).1⟩

/-- C4 counterexample: node 1 of exGraphABRem is in range and inactive;
the claim demands graph_add_edge(0, 1, 5) to fail, but it succeeds and
afterwards an active edge into the inactive node 1 exists. -/
theorem C4_counterexample :
    (exGraphABRem.nodes 1).active = false ∧
      (1:Int) < exGraphABRem.nodeCount ∧
      (graph_add_edge exGraphABRem 0 1 5).1 = true ∧
      graph_has_edge (graph_add_edge exGraphABRem 0 1 5).2 0 1 = true := by
  with_unfolding_all decide

/-- C4 (amended): graph_add_edge fails, leaving the graph unchanged,
whenever either endpoint id is out of range; but the endpoints' active
flags are never consulted: with both ids in range, spare adjacency
capacity and no existing active (from,to) edge, the call succeeds even
when an endpoint is inactive. -/
theorem C4_add_edge_range_only (g : Graph) (f t : Int) (w : ℚ) :
    ((f < 0 ∨ g.nodeCount ≤ f ∨ t < 0 ∨ g.nodeCount ≤ t) →
      graph_add_edge g f t w = (false, g)) ∧
    (0 ≤ f → f < g.nodeCount → 0 ≤ t → t < g.nodeCount →
      g.edgeCounts f.toNat < (MAX_EDGES_PER_NODE : Int) →
      graph_has_edge g f t = false →
      (graph_add_edge g f t w).1 = true) := by
  constructor
  · intro h
    unfold graph_add_edge
    split_ifs <;> first | rfl | omega
  · intro h0 h1 h2 h3 h4 h5
    unfold graph_add_edge
    rw [if_neg (by omega), if_neg (by omega), if_neg (by omega),
      if_neg (by simp [h5])]

/-- C4 witness: the amended theorem's success part applied to
exGraphABRem with the inactive endpoint 1. -/
theorem C4_add_edge_range_only_witness :
    (exGraphABRem.nodes 1).active = false ∧
      (graph_add_edge exGraphABRem 0 1 5).1 = true :=
  ⟨by with_unfolding_all decide,
    (C4_add_edge_range_only exGraphABRem 0 1 5).2 (by decide)
      (by with_unfolding_all decide) (by decide)
      (by with_unfolding_all decide) (by with_unfolding_all decide)
      (by with_unfolding_all decide)⟩

/-- pq_pop on a queue holding exactly one entry returns that entry and the
emptied queue. -/
theorem pq_pop_singleton (pq : PriorityQueue) (e : PQNode) (h : pq.nodes = [e]) :
    pq_pop pq = some (e.nodeId, e.fScore, { pq with nodes := [] }) := by
  obtain ⟨nodes, cap⟩ := pq
  simp only at h
  subst h
  rfl

/-- After astar_init with a positive node count, the open-set heap holds
exactly the start entry with its f-score. -/
theorem astar_init_openSet (sqrtf : ℚ → ℚ) (g : Graph) (c : AStarConfig)
    (s t : Int) (hN : 0 < g.nodeCount.toNat) :
    (astar_init sqrtf g c s t).openSet.nodes =
      [⟨s, ((astar_heuristic sqrtf (g.nodes s.toNat) (g.nodes t.toNat) c.heuristic *
        c.heuristicWeight : ℚ) : WithTop ℚ)⟩] := by
  have hN2 : ¬ (g.nodeCount.toNat ≤ 0) := by omega
  unfold astar_init pq_push
  simp only [List.length_nil, hN2, if_false, List.nil_append]
  rw [pq_heapify_up.eq_def]
  simp only [Nat.lt_irrefl, dite_false]
  rw [Function.update_same]

/-- reconstruct_path with goal equal to start yields the one-node path
with cost gScore[start]. -/
theorem reconstruct_path_self (cameFrom : Nat → Int) (gScore : Nat → WithTop ℚ)
    (s : Int) (n : Nat) :
    reconstruct_path cameFrom gScore s s n =
      { nodes := [s], length := 1, totalCost := gScore s.toNat, found := true } := by
  unfold reconstruct_path
  rw [walk_back]
  simp [chain_list]

/-- C7: for an in-range active start node, astar_find_path with goal equal
to start returns found=true with the single-node path [s] and total cost
0, for every configuration and graph edge content. -/
theorem C7_start_eq_goal (sqrtf : ℚ → ℚ) (g : Graph) (s : Int)
    (cfg : Option AStarConfig)
    (h0 : 0 ≤ s) (h1 : s < g.nodeCount) (h2 : (g.nodes s.toNat).active = true) :
    (astar_find_path sqrtf g s s cfg).1 = ⟨[s], 1, 0, true⟩ := by
  have hc : ¬(s < 0 ∨ s < 0 ∨ g.nodeCount ≤ s ∨ g.nodeCount ≤ s) := by omega
  unfold astar_find_path
  rw [if_neg hc]
  set c := cfg.getD astar_default_config with hcdef
  set st0 := astar_init sqrtf g c s s with hst0
  have ho : st0.openSet.nodes = [⟨s, _⟩] :=
    astar_init_openSet sqrtf g c s s (by omega)
  have hg : st0.gScore = Function.update (fun _ => ⊤) s.toNat 0 := rfl
  simp only [astar_loop]
  rw [astar_step, pq_pop_singleton st0.openSet _ ho]
  dsimp only
  rw [if_pos (show ((s == s) = true) by simp)]
  rw [reconstruct_path_self]
  dsimp only
  rw [hg, Function.update_same]

/-- C7 witness: the theorem applied to the one-node graph exGraphA. -/
theorem C7_start_eq_goal_witness :
    (0:Int) ≤ 0 ∧ (0:Int) < exGraphA.nodeCount ∧
      (exGraphA.nodes 0).active = true ∧
      (astar_find_path (fun _ => 0) exGraphA 0 0 none).1 = ⟨[0], 1, 0, true⟩ :=
  ⟨by decide, by with_unfolding_all decide, by with_unfolding_all decide,
    C7_start_eq_goal (fun _ => 0) exGraphA 0 none (by decide)
      (by with_unfolding_all decide) (by with_unfolding_all decide)⟩

/-- C8: after a successful graph_remove_node(x), graph_has_edge(y, x) is
false for every other id y and graph_get_neighbors(x) reports zero
neighbors, whatever the prior edges were. -/
theorem C8_remove_clears_incoming (g : Graph) (x : Int)
    (h0 : 0 ≤ x) (h1 : x < g.nodeCount) :
    (graph_remove_node g x).1 = true ∧
      (∀ y : Int, y ≠ x →
        graph_has_edge (graph_remove_node g x).2 y x = false) ∧
      ∀ m : Int, graph_get_neighbors (graph_remove_node g x).2 x m = (0, []) := by
  have hc : ¬(x < 0 ∨ g.nodeCount ≤ x) := by omega
  unfold graph_remove_node
  rw [if_neg hc]
  refine ⟨rfl, ?_, ?_⟩
  · intro y hy
    unfold graph_has_edge
    dsimp only
    split_ifs with hrange
    · rfl
    · rw [List.any_eq_false]
      intro i hi
      rw [List.mem_range] at hi
      have hyx : y.toNat ≠ x.toNat := by omega
      rw [Function.update_apply, if_neg hyx] at hi
      by_cases hto : (g.edges y.toNat i).«to» = x
      · rw [if_pos ⟨hyx, by omega, hi, hto⟩]
        simp
      · rw [if_neg (by tauto)]
        simp [hto]
  · intro m
    unfold graph_get_neighbors
    dsimp only
    rw [if_neg hc]
    rw [Function.update_same]
    rfl

/-- exGraphAB with the directed edge 0→1 of weight 5. -/
def exGraphABEdge : Graph := (graph_add_edge exGraphAB 0 1 5).2

/-- C8 witness: the theorem applied to exGraphABEdge, removing node 1
which has the incoming edge 0→1. -/
theorem C8_remove_clears_incoming_witness :
    (0:Int) ≤ 1 ∧ (1:Int) < exGraphABEdge.nodeCount ∧
      graph_has_edge (graph_remove_node exGraphABEdge 1).2 0 1 = false ∧
      graph_get_neighbors (graph_remove_node exGraphABEdge 1).2 1 20 = (0, []) :=
  ⟨by decide, by with_unfolding_all decide,
    (C8_remove_clears_incoming exGraphABEdge 1 (by decide)
      (by with_unfolding_all decide)).2.1 0 (by decide),
    (C8_remove_clears_incoming exGraphABEdge 1 (by decide)
      (by with_unfolding_all decide)).2.2 20⟩

/-- Reading back one node record written by graph_save restores that node
exactly and consumes exactly its five fields. -/
theorem load_node_save (nd nd0 : Node) (rest : List FileField) :
    load_node nd0 (save_node nd ++ rest) = (nd, rest) := rfl

/-- Reading back one edge record written by graph_save restores that edge
exactly and consumes exactly its four fields. -/
theorem load_edge_save (e e0 : Edge) (rest : List FileField) :
    load_edge e0 (save_edge e ++ rest) = (e, rest) := rfl

/-- The node-reading loop on the stream written by graph_save restores the
first n node slots. -/
theorem load_nodes_save (g : Graph) (n : Nat) (ns : Nat → Node)
    (rest : List FileField) :
    load_nodes n ns (save_nodes_upto g n ++ rest) =
      (fun i => if i < n then g.nodes i else ns i, rest) := by
  induction n generalizing rest with
  | zero =>
    simp only [save_nodes_upto, List.range_zero, List.map_nil, List.flatten_nil,
      List.nil_append, load_nodes, List.foldl_nil]
    refine Prod.ext ?_ rfl
    funext i
    simp
  | succ n ih =>
    have hsplit : save_nodes_upto g (n + 1) =
        save_nodes_upto g n ++ save_node (g.nodes n) := by
      simp [save_nodes_upto, List.range_succ]
    rw [hsplit, List.append_assoc]
    unfold load_nodes
    rw [List.range_succ, List.foldl_append]
    have ihx := ih (save_node (g.nodes n) ++ rest)
    unfold load_nodes at ihx
    rw [ihx]
    simp only [List.foldl_cons, List.foldl_nil]
    rw [load_node_save]
    refine Prod.ext ?_ rfl
    funext i
    simp only [Function.update_apply]
    by_cases hi : i = n
    · subst hi
      simp
    · rw [if_neg hi]
      by_cases hlt : i < n
      · rw [if_pos hlt, if_pos (by omega)]
      · rw [if_neg hlt, if_neg (by omega)]

/-- Helper for the edge-count table: reading n int fields written from
edgeCounts restores the first n entries. -/
theorem load_edgeCounts_aux (g : Graph) (n : Nat) (counts : Nat → Int)
    (rest : List FileField) :
    (List.range n).foldl
      (fun acc i =>
        let r := readInt acc.2
        (Function.update acc.1 i (r.1.getD (acc.1 i)), r.2))
      (counts, ((List.range n).map fun i => FileField.fInt (g.edgeCounts i)) ++ rest) =
      (fun i => if i < n then g.edgeCounts i else counts i, rest) := by
  induction n generalizing rest with
  | zero =>
    simp only [List.range_zero, List.map_nil, List.nil_append, List.foldl_nil]
    refine Prod.ext ?_ rfl
    funext i
    simp
  | succ n ih =>
    rw [List.range_succ, List.map_append, List.foldl_append, List.append_assoc]
    rw [ih]
    simp only [List.map_cons, List.map_nil, List.foldl_cons, List.foldl_nil,
      List.singleton_append]
    refine Prod.ext ?_ rfl
    funext i
    simp only [Function.update_apply]
    by_cases hi : i = n
    · subst hi
      simp [readInt]
    · rw [if_neg hi]
      by_cases hlt : i < n
      · rw [if_pos hlt, if_pos (by omega)]
      · rw [if_neg hlt, if_neg (by omega)]

/-- The edge-count-table loop on the stream written by graph_save restores
all MAX_NODES entries. -/
theorem load_edgeCounts_save (g : Graph) (counts : Nat → Int)
    (rest : List FileField) :
    load_edgeCounts counts (save_edgeCounts g ++ rest) =
      (fun i => if i < MAX_NODES then g.edgeCounts i else counts i, rest) := by
  unfold load_edgeCounts save_edgeCounts
  exact load_edgeCounts_aux g MAX_NODES counts rest

/-- The inner edge loop on one saved adjacency row restores that row. -/
theorem load_edges_row_save (g : Graph) (i m : Nat) (es : Nat → Nat → Edge)
    (rest : List FileField) :
    load_edges_row i m es
      ((((List.range m).map fun j => save_edge (g.edges i j)).flatten) ++ rest) =
      (fun a b => if a = i ∧ b < m then g.edges a b else es a b, rest) := by
  induction m generalizing rest with
  | zero =>
    simp only [List.range_zero, List.map_nil, List.flatten_nil, List.nil_append,
      load_edges_row, List.foldl_nil]
    refine Prod.ext ?_ rfl
    funext a b
    simp
  | succ m ih =>
    unfold load_edges_row
    rw [List.range_succ, List.map_append, List.flatten_append,
      List.foldl_append, List.append_assoc]
    simp only [List.map_cons, List.map_nil, List.flatten_cons,
      List.flatten_nil, List.append_nil]
    have ihx := ih (save_edge (g.edges i m) ++ rest)
    unfold load_edges_row at ihx
    rw [ihx]
    simp only [List.foldl_cons, List.foldl_nil]
    rw [load_edge_save]
    refine Prod.ext ?_ rfl
    funext a b
    dsimp only
    by_cases ha : a = i
    · subst ha
      by_cases hb : b = m
      · subst hb
        rw [if_pos ⟨rfl, rfl⟩, if_pos ⟨rfl, by omega⟩]
      · rw [if_neg (by tauto)]
        by_cases hlt : b < m
        · rw [if_pos ⟨rfl, hlt⟩, if_pos ⟨rfl, by omega⟩]
        · rw [if_neg (by tauto), if_neg (by omega)]
    · rw [if_neg (by tauto), if_neg (by tauto), if_neg (by tauto)]

/-- The outer edge loops on the saved edge records restore all rows of the
first n source slots. -/
theorem load_edges_save (g : Graph) (n : Nat) (counts : Nat → Int)
    (hcounts : ∀ i, i < n → counts i = g.edgeCounts i)
    (es : Nat → Nat → Edge) (rest : List FileField) :
    load_edges n counts es (save_edges_upto g n ++ rest) =
      (fun a b => if a < n ∧ b < (g.edgeCounts a).toNat then g.edges a b
        else es a b, rest) := by
  induction n generalizing rest with
  | zero =>
    simp only [save_edges_upto, List.range_zero, List.map_nil, List.flatten_nil,
      List.nil_append, load_edges, List.foldl_nil]
    refine Prod.ext ?_ rfl
    funext a b
    simp
  | succ n ih =>
    have hsplit : save_edges_upto g (n + 1) = save_edges_upto g n ++
        ((List.range (g.edgeCounts n).toNat).map fun j =>
          save_edge (g.edges n j)).flatten := by
      simp [save_edges_upto, List.range_succ]
    rw [hsplit, List.append_assoc]
    unfold load_edges
    rw [List.range_succ, List.foldl_append]
    have ihx := ih (fun i hi => hcounts i (by omega))
      ((((List.range (g.edgeCounts n).toNat).map fun j =>
        save_edge (g.edges n j)).flatten) ++ rest)
    unfold load_edges at ihx
    rw [ihx]
    simp only [List.foldl_cons, List.foldl_nil]
    rw [hcounts n (by omega), load_edges_row_save]
    refine Prod.ext ?_ rfl
    funext a b
    dsimp only
    by_cases ha : a = n
    · subst ha
      by_cases hb : b < (g.edgeCounts a).toNat
      · rw [if_pos ⟨rfl, hb⟩, if_pos ⟨by omega, hb⟩]
      · rw [if_neg (by tauto), if_neg (by tauto), if_neg (by omega)]
    · rw [if_neg (by tauto)]
      by_cases hcase : a < n ∧ b < (g.edgeCounts a).toNat
      · rw [if_pos hcase, if_pos ⟨by omega, hcase.2⟩]
      · rw [if_neg hcase, if_neg (by omega)]

/-- graph_load applied to the exact stream written by graph_save: success,
with every saved slot restored and the remaining slots at their reset
values. -/
theorem graph_load_save (d g : Graph) (hN1 : g.nodeCount ≤ (MAX_NODES : Int)) :
    graph_load d (graph_save g) =
      (true,
        { nodes := fun i => if i < g.nodeCount.toNat then g.nodes i
            else graph_init.nodes i
          nodeCount := g.nodeCount
          edges := fun a b =>
            if a < g.nodeCount.toNat ∧ b < (g.edgeCounts a).toNat
            then g.edges a b else graph_init.edges a b
          edgeCounts := fun i => if i < MAX_NODES then g.edgeCounts i
            else graph_init.edgeCounts i }) := by
  unfold graph_save graph_load
  dsimp only [readMagic, readInt]
  rw [if_neg (by simp)]
  rw [List.append_assoc]
  rw [load_nodes_save]
  dsimp only
  rw [load_edgeCounts_save]
  dsimp only
  rw [show save_edges_upto g g.nodeCount.toNat =
    save_edges_upto g g.nodeCount.toNat ++ [] by simp]
  rw [load_edges_save g g.nodeCount.toNat _
    (fun i hi => if_pos (by omega)) _ []]

/-- C6: saving a graph and loading the produced stream succeeds and yields
the same nodeCount, the same node record in every slot below nodeCount
(id, name, coordinates, active flag), the same full edge-count table, and
the same edge record (from, to, weight, active) in every stored adjacency
slot. -/
theorem C6_save_load_roundtrip (d g : Graph)
    (hN0 : 0 ≤ g.nodeCount) (hN1 : g.nodeCount ≤ (MAX_NODES : Int)) :
    (graph_load d (graph_save g)).1 = true ∧
      (graph_load d (graph_save g)).2.nodeCount = g.nodeCount ∧
      (∀ i, i < g.nodeCount.toNat →
        (graph_load d (graph_save g)).2.nodes i = g.nodes i) ∧
      (∀ i, i < MAX_NODES →
        (graph_load d (graph_save g)).2.edgeCounts i = g.edgeCounts i) ∧
      (∀ i, i < g.nodeCount.toNat → ∀ j, j < (g.edgeCounts i).toNat →
        (graph_load d (graph_save g)).2.edges i j = g.edges i j) := by
  rw [graph_load_save d g hN1]
  refine ⟨rfl, rfl, ?_, ?_, ?_⟩
  · intro i hi
    exact if_pos hi
  · intro i hi
    exact if_pos hi
  · intro i hi j hj
    exact if_pos ⟨hi, hj⟩

/-- C6 witness: the roundtrip applied to the two-node one-edge graph. -/
theorem C6_save_load_roundtrip_witness :
    (0:Int) ≤ exGraphABEdge.nodeCount ∧
      (graph_load graph_init (graph_save exGraphABEdge)).1 = true ∧
      (graph_load graph_init (graph_save exGraphABEdge)).2.nodes 0 =
        exGraphABEdge.nodes 0 :=
  ⟨by with_unfolding_all decide,
    (C6_save_load_roundtrip graph_init exGraphABEdge
      (by with_unfolding_all decide) (by with_unfolding_all decide)).1,
    (C6_save_load_roundtrip graph_init exGraphABEdge
      (by with_unfolding_all decide) (by with_unfolding_all decide)).2.2.1 0
      (by with_unfolding_all decide)⟩

/-- A truncated stream: valid magic, a declared node count of 1, and then
nothing (every node-record read is short). -/
def exShortFile : List FileField := [.fMagic "RCGRAPH1", .fInt 1]

/-- C5 counterexample: the claim demands failure for every short read of
the declared content, but graph_load only checks the magic read and the
node-count read; on exShortFile all node-record reads are short yet
graph_load returns true. -/
theorem C5_counterexample :
    (graph_load graph_init exShortFile).1 = true ∧
      (graph_load graph_init exShortFile).2.nodeCount = 1 := by
  with_unfolding_all decide

/-- C5 (amended): graph_load fails exactly when the magic field is absent
or mismatched (destination untouched) or the node-count read is short
(destination reset to the freshly initialized state); once the magic and
the node count have been read it always returns true — short reads of
node records, the edge-count table or edge records are ignored. -/
theorem C5_load_failure_modes (g : Graph) (file : List FileField) :
    ((readMagic file).1 = none → graph_load g file = (false, g)) ∧
    (∀ s, (readMagic file).1 = some s → s ≠ "RCGRAPH1" →
      graph_load g file = (false, g)) ∧
    ((readMagic file).1 = some "RCGRAPH1" →
      (readInt (readMagic file).2).1 = none →
      graph_load g file = (false, graph_init)) ∧
    ((readMagic file).1 = some "RCGRAPH1" →
      ∀ c, (readInt (readMagic file).2).1 = some c →
      (graph_load g file).1 = true) := by
  refine ⟨?_, ?_, ?_, ?_⟩
  · intro h
    rcases file with _ | ⟨f, rest⟩
    · rfl
    · cases f
      case fMagic s => simp [readMagic] at h
      all_goals rfl
  · intro s hs hne
    rcases file with _ | ⟨f, rest⟩
    · simp [readMagic] at hs
    · cases f
      case fMagic s1 =>
        simp only [readMagic, Option.some.injEq] at hs
        subst hs
        dsimp only [graph_load, readMagic]
        rw [if_pos hne]
      all_goals simp [readMagic] at hs
  · intro hm hc
    rcases file with _ | ⟨f, rest⟩
    · simp [readMagic] at hm
    · cases f
      case fMagic s1 =>
        simp only [readMagic, Option.some.injEq] at hm hc
        subst hm
        dsimp only [graph_load, readMagic]
        rw [if_neg (by simp)]
        rcases rest with _ | ⟨f2, rest2⟩
        · rfl
        · cases f2
          case fInt n => simp [readInt] at hc
          all_goals rfl
      all_goals simp [readMagic] at hm
  · intro hm c hc
    rcases file with _ | ⟨f, rest⟩
    · simp [readMagic] at hm
    · cases f
      case fMagic s1 =>
        simp only [readMagic, Option.some.injEq] at hm hc
        subst hm
        dsimp only [graph_load, readMagic]
        rw [if_neg (by simp)]
        rcases rest with _ | ⟨f2, rest2⟩
        · simp [readInt] at hc
        · cases f2
          case fInt n => rfl
          all_goals simp [readInt] at hc
      all_goals simp [readMagic] at hm

/-- C5 witness: the amended theorem applied to a wrong-magic stream and to
the truncated stream exShortFile. -/
theorem C5_load_failure_modes_witness :
    graph_load exGraphA [FileField.fMagic "XXGRAPH1"] = (false, exGraphA) ∧
      (graph_load graph_init exShortFile).1 = true :=
  ⟨(C5_load_failure_modes exGraphA [FileField.fMagic "XXGRAPH1"]).2.1
      "XXGRAPH1" rfl (by decide),
    (C5_load_failure_modes graph_init exShortFile).2.2.2 rfl 1 rfl⟩

theorem pqGet_out (l : List PQNode) (i : Nat) (h : l.length ≤ i) :
    pqGet l i = ⟨0, ⊤⟩ := by
  simp [pqGet, List.getD_eq_getElem?_getD, List.getElem?_eq_none h]

theorem pqGet_set_self (l : List PQNode) (i : Nat) (x : PQNode)
    (h : i < l.length) : pqGet (l.set i x) i = x := by
  simp [pqGet, List.getD_eq_getElem?_getD, List.getElem?_set_self h]

theorem pqGet_set_ne (l : List PQNode) (i j : Nat) (x : PQNode)
    (h : i ≠ j) : pqGet (l.set i x) j = pqGet l j := by
  simp [pqGet, List.getD_eq_getElem?_getD, List.getElem?_set_ne h]

theorem pqGet_swap_fst (l : List PQNode) (i j : Nat)
    (hi : i < l.length) (hj : j < l.length) :
    pqGet (pq_swap l i j) i = pqGet l j := by
  unfold pq_swap
  by_cases hij : i = j
  · subst hij
    rw [pqGet_set_self _ _ _ (by simpa using hi)]
  · rw [pqGet_set_ne _ _ _ _ (Ne.symm hij), pqGet_set_self _ _ _ hi]

theorem pqGet_swap_snd (l : List PQNode) (i j : Nat)
    (hi : i < l.length) (hj : j < l.length) :
    pqGet (pq_swap l i j) j = pqGet l i := by
  unfold pq_swap
  rw [pqGet_set_self _ _ _ (by simpa using hj)]

theorem pqGet_swap_other (l : List PQNode) (i j k : Nat)
    (hki : k ≠ i) (hkj : k ≠ j) :
    pqGet (pq_swap l i j) k = pqGet l k := by
  unfold pq_swap
  rw [pqGet_set_ne _ _ _ _ (Ne.symm hkj), pqGet_set_ne _ _ _ _ (Ne.symm hki)]

/-- The binary min-heap invariant of the astar.c priority queue: every
entry's key is at least its parent's key. -/
def heapProp (l : List PQNode) : Prop :=
  ∀ i, 0 < i → i < l.length →
    (pqGet l ((i - 1) / 2)).fScore ≤ (pqGet l i).fScore

/-- The sift-up precondition: the heap property may fail only at position
k towards its parent, and k's parent's key is below k's children's keys. -/
def almostHeapUp (l : List PQNode) (k : Nat) : Prop :=
  (∀ i, 0 < i → i < l.length → i ≠ k →
    (pqGet l ((i - 1) / 2)).fScore ≤ (pqGet l i).fScore) ∧
  (0 < k → ∀ i, i < l.length → (i - 1) / 2 = k → 0 < i →
    (pqGet l ((k - 1) / 2)).fScore ≤ (pqGet l i).fScore)

theorem heapify_up_heapProp (k : Nat) :
    ∀ l : List PQNode, almostHeapUp l k → heapProp (pq_heapify_up l k) := by
  induction k using Nat.strong_induction_on with
  | _ k ih =>
    intro l h
    rw [pq_heapify_up.eq_def]
    by_cases hk : 0 < k
    · rw [dif_pos hk]
      show heapProp (if (pqGet l k).fScore < (pqGet l ((k - 1) / 2)).fScore
        then pq_heapify_up (pq_swap l k ((k - 1) / 2)) ((k - 1) / 2) else l)
      by_cases hlt : (pqGet l k).fScore < (pqGet l ((k - 1) / 2)).fScore
      · rw [if_pos hlt]
        have hpk : (k - 1) / 2 < k := by omega
        have hklen : k < l.length := by
          by_contra hout
          rw [pqGet_out l k (by omega)] at hlt
          exact absurd hlt (by simp)
        have hplen : (k - 1) / 2 < l.length := by omega
        apply ih ((k - 1) / 2) hpk
        constructor
        · intro i hi0 hilen hip
          rw [pq_swap_length] at hilen
          by_cases hik : i = k
          · subst hik
            rw [pqGet_swap_fst l i ((i - 1) / 2) hklen hplen,
              pqGet_swap_snd l i ((i - 1) / 2) hklen hplen]
            exact le_of_lt hlt
          · by_cases hparK : (i - 1) / 2 = k
            · rw [hparK, pqGet_swap_fst l k ((k - 1) / 2) hklen hplen]
              rw [pqGet_swap_other l k ((k - 1) / 2) i (by omega) (by omega)]
              exact h.2 hk i hilen hparK hi0
            · by_cases hparP : (i - 1) / 2 = (k - 1) / 2
              · rw [hparP, pqGet_swap_snd l k ((k - 1) / 2) hklen hplen]
                rw [pqGet_swap_other l k ((k - 1) / 2) i (by omega) (by omega)]
                refine le_trans (le_of_lt hlt) ?_
                have hx := h.1 i hi0 hilen hik
                rw [hparP] at hx
                exact hx
              · rw [pqGet_swap_other l k ((k - 1) / 2) _ (by omega) (by omega),
                  pqGet_swap_other l k ((k - 1) / 2) i (by omega) (by omega)]
                exact h.1 i hi0 hilen hik
        · intro hp0 i hilen hpari hi0
          rw [pq_swap_length] at hilen
          rw [pqGet_swap_other l k ((k - 1) / 2) _ (by omega) (by omega)]
          by_cases hik : i = k
          · subst hik
            rw [pqGet_swap_fst l i ((i - 1) / 2) hklen hplen]
            exact h.1 ((i - 1) / 2) hp0 hplen (by omega)
          · rw [pqGet_swap_other l k ((k - 1) / 2) i (by omega) (by omega)]
            have h1 := h.1 i hi0 hilen hik
            rw [hpari] at h1
            have h2 := h.1 ((k - 1) / 2) hp0 hplen (by omega)
            exact le_trans h2 h1
      · rw [if_neg hlt]
        intro i hi0 hilen
        by_cases hik : i = k
        · subst hik
          exact le_of_not_lt hlt
        · exact h.1 i hi0 hilen hik
    · rw [dif_neg hk]
      intro i hi0 hilen
      exact h.1 i hi0 hilen (by omega)

theorem pqSmallest_cases (l : List PQNode) (k : Nat) :
    pqSmallest l k = k ∨ pqSmallest l k = 2 * k + 1 ∨ pqSmallest l k = 2 * k + 2 := by
  simp only [pqSmallest]
  split_ifs <;> omega

theorem pqSmallest_le_k (l : List PQNode) (k : Nat) :
    (pqGet l (pqSmallest l k)).fScore ≤ (pqGet l k).fScore := by
  simp only [pqSmallest]
  split_ifs with h1 h2 h3
  · exact le_of_lt (lt_trans h2.2 h1.2)
  · exact le_of_lt h1.2
  · exact le_of_lt h3.2
  · exact le_refl _

theorem pqSmallest_lt_k (l : List PQNode) (k : Nat)
    (h : pqSmallest l k ≠ k) :
    (pqGet l (pqSmallest l k)).fScore < (pqGet l k).fScore := by
  simp only [pqSmallest] at h ⊢
  split_ifs at h ⊢ with h1 h2 h3
  · exact lt_trans h2.2 h1.2
  · exact h1.2
  · exact h3.2
  · omega

theorem pqSmallest_le_children (l : List PQNode) (k : Nat) :
    ∀ c, (c = 2 * k + 1 ∨ c = 2 * k + 2) → c < l.length →
      (pqGet l (pqSmallest l k)).fScore ≤ (pqGet l c).fScore := by
  intro c hc hclen
  simp only [pqSmallest]
  split_ifs with h1 h2 h3
  · -- s1 = left, s2 = right
    rcases hc with rfl | rfl
    · exact le_of_lt h2.2
    · exact le_refl _
  · -- s1 = left, s2 = left
    rcases hc with rfl | rfl
    · exact le_refl _
    · exact le_of_not_lt fun hlt => h2 ⟨hclen, hlt⟩
  · -- s1 = k, s2 = right
    rcases hc with rfl | rfl
    · exact le_trans (le_of_lt h3.2) (le_of_not_lt fun hlt => h1 ⟨hclen, hlt⟩)
    · exact le_refl _
  · -- s1 = k, s2 = k
    rcases hc with rfl | rfl
    · exact le_of_not_lt fun hlt => h1 ⟨hclen, hlt⟩
    · exact le_of_not_lt fun hlt => h3 ⟨hclen, hlt⟩

/-- The sift-down precondition: the heap property may fail only from
position k towards its children, and k's parent's key is below k's
children's keys. -/
def almostHeapDown (l : List PQNode) (k : Nat) : Prop :=
  (∀ i, 0 < i → i < l.length → (i - 1) / 2 ≠ k →
    (pqGet l ((i - 1) / 2)).fScore ≤ (pqGet l i).fScore) ∧
  (0 < k → ∀ i, i < l.length → (i - 1) / 2 = k → 0 < i →
    (pqGet l ((k - 1) / 2)).fScore ≤ (pqGet l i).fScore)

theorem heapify_down_heapProp (m : Nat) :
    ∀ (l : List PQNode) (k : Nat), l.length - k ≤ m → almostHeapDown l k →
      heapProp (pq_heapify_down l k) := by
  induction m with
  | zero =>
    intro l k hm h
    have hs : pqSmallest l k = k := by
      rcases pqSmallest_cases l k with hc | hc | hc
      · exact hc
      · exfalso
        rcases pqSmallest_ne l k (by omega) with ⟨h1, h2⟩
        omega
      · exfalso
        rcases pqSmallest_ne l k (by omega) with ⟨h1, h2⟩
        omega
    rw [pq_heapify_down.eq_def, dif_neg (by omega : ¬pqSmallest l k ≠ k)]
    intro i hi0 hilen
    by_cases hpar : (i - 1) / 2 = k
    · omega
    · exact h.1 i hi0 hilen hpar
  | succ m ih =>
    intro l k hm h
    rw [pq_heapify_down.eq_def]
    by_cases hs : pqSmallest l k ≠ k
    · rw [dif_pos hs]
      obtain ⟨hks, hslen⟩ := pqSmallest_ne l k hs
      have hchild : pqSmallest l k = 2 * k + 1 ∨ pqSmallest l k = 2 * k + 2 := by
        rcases pqSmallest_cases l k with hc | hc | hc
        · omega
        · exact Or.inl hc
        · exact Or.inr hc
      have hklen : k < l.length := by omega
      have hpars : (pqSmallest l k - 1) / 2 = k := by omega
      have hlt := pqSmallest_lt_k l k hs
      apply ih (pq_swap l k (pqSmallest l k)) (pqSmallest l k)
      · rw [pq_swap_length]
        omega
      constructor
      · intro i hi0 hilen hpar
        rw [pq_swap_length] at hilen
        by_cases hik : i = k
        · subst hik
          have hk0 : 0 < i := hi0
          have hp1 : (i - 1) / 2 ≠ i := by omega
          have hp2 : (i - 1) / 2 ≠ pqSmallest l i := by omega
          rw [pqGet_swap_other l i (pqSmallest l i) _ hp1 hp2,
            pqGet_swap_fst l i (pqSmallest l i) hklen hslen]
          exact h.2 hi0 (pqSmallest l i) hslen (by omega) (by omega)
        · by_cases his : i = pqSmallest l k
          · rw [his, hpars, pqGet_swap_fst l k (pqSmallest l k) hklen hslen,
              pqGet_swap_snd l k (pqSmallest l k) hklen hslen]
            exact le_of_lt hlt
          · by_cases hpark : (i - 1) / 2 = k
            · rw [hpark, pqGet_swap_fst l k (pqSmallest l k) hklen hslen,
                pqGet_swap_other l k (pqSmallest l k) i (by omega) (by omega)]
              exact pqSmallest_le_children l k i (by omega) hilen
            · rw [pqGet_swap_other l k (pqSmallest l k) _ (by omega) (by omega),
                pqGet_swap_other l k (pqSmallest l k) i (by omega) (by omega)]
              exact h.1 i hi0 hilen hpark
      · intro hs0 i hilen hpari hi0
        rw [pq_swap_length] at hilen
        rw [hpars, pqGet_swap_fst l k (pqSmallest l k) hklen hslen]
        have hine : i ≠ k := by omega
        have hine2 : i ≠ pqSmallest l k := by omega
        rw [pqGet_swap_other l k (pqSmallest l k) i (Ne.symm (by omega)) hine2]
        have h1 := h.1 i hi0 hilen (by omega)
        rw [hpari] at h1
        exact h1
    · rw [dif_neg hs]
      intro i hi0 hilen
      by_cases hpar : (i - 1) / 2 = k
      · have hik : i = 2 * k + 1 ∨ i = 2 * k + 2 := by omega
        have := pqSmallest_le_children l k i hik hilen
        rw [not_ne_iff.mp hs] at this
        rw [hpar]
        exact this
      · exact h.1 i hi0 hilen hpar

theorem pqGet_append_left (l l2 : List PQNode) (i : Nat) (h : i < l.length) :
    pqGet (l ++ l2) i = pqGet l i := by
  simp [pqGet, List.getD_eq_getElem?_getD, List.getElem?_append_left h]

theorem pq_push_heapProp (pq : PriorityQueue) (id : Int) (f : WithTop ℚ)
    (h : heapProp pq.nodes) : heapProp (pq_push pq id f).2.nodes := by
  unfold pq_push
  split_ifs with hcap
  · exact h
  · apply heapify_up_heapProp
    constructor
    · intro i hi0 hilen hik
      rw [List.length_append, List.length_singleton] at hilen
      have hilt : i < pq.nodes.length := by omega
      rw [pqGet_append_left _ _ _ hilt, pqGet_append_left _ _ _ (by omega)]
      exact h i hi0 hilt
    · intro hk0 i hilen hpari hi0
      rw [List.length_append, List.length_singleton] at hilen
      omega

theorem pqGet_dropLast (l : List PQNode) (i : Nat) (h : i < l.length - 1) :
    pqGet l.dropLast i = pqGet l i := by
  simp [pqGet, List.getD_eq_getElem?_getD, List.getElem?_dropLast, h,
    List.getElem?_eq_getElem (show i < l.length by omega)]

theorem pq_pop_heapProp (pq : PriorityQueue) (h : heapProp pq.nodes) :
    ∀ r, pq_pop pq = some r → heapProp r.2.2.nodes := by
  obtain ⟨nodes, cap⟩ := pq
  rcases nodes with _ | ⟨root, rest⟩
  · intro r hr
    cases hr
  · intro r hr
    unfold pq_pop at hr
    dsimp only at hr h ⊢
    by_cases hre : rest.isEmpty
    · rw [if_pos hre] at hr
      cases hr.symm
      intro i hi0 hilen
      simp at hilen
    · rw [if_neg hre] at hr
      cases hr.symm
      dsimp only
      apply heapify_down_heapProp (((root :: rest).dropLast.set 0
        (pqGet (root :: rest) ((root :: rest).length - 1))).length) _ _ (le_refl _)
      have hlen2 : 2 ≤ (root :: rest).length := by
        cases rest with
        | nil => simp at hre
        | cons a b => simp
      constructor
      · intro i hi0 hilen hpar
        rw [List.length_set, List.length_dropLast] at hilen
        have hine : i ≠ 0 := by omega
        have hpne : (i - 1) / 2 ≠ 0 := hpar
        rw [pqGet_set_ne _ _ _ _ (Ne.symm hine),
          pqGet_set_ne _ _ _ _ (Ne.symm hpne),
          pqGet_dropLast _ _ (by omega), pqGet_dropLast _ _ (by omega)]
        exact h i hi0 (by simp at hilen ⊢; omega)
      · intro h0
        omega

theorem pq_decrease_heapProp (pq : PriorityQueue) (id : Int) (f : WithTop ℚ)
    (h : heapProp pq.nodes) :
    heapProp (pq_decrease_priority pq id f).nodes := by
  unfold pq_decrease_priority
  cases hidx : pq.nodes.findIdx? (fun nd => nd.nodeId == id) with
  | none => exact pq_push_heapProp pq id f h
  | some i =>
    obtain ⟨hi, -⟩ := List.findIdx?_eq_some_iff_getElem.mp hidx
    dsimp only
    split_ifs with hlt
    · apply heapify_up_heapProp
      constructor
      · intro j hj0 hjlen hji
        rw [List.length_set] at hjlen
        by_cases hpj : (j - 1) / 2 = i
        · rw [hpj, pqGet_set_self _ _ _ hi, pqGet_set_ne _ _ _ _ (by omega)]
          refine le_trans (le_of_lt hlt) ?_
          have hx := h j hj0 hjlen
          rw [hpj] at hx
          exact hx
        · rw [pqGet_set_ne _ _ _ _ (Ne.symm hpj),
            pqGet_set_ne _ _ _ _ (Ne.symm hji)]
          exact h j hj0 hjlen
      · intro hi0 j hjlen hpj hj0
        rw [List.length_set] at hjlen
        rw [pqGet_set_ne _ _ _ _ (by omega), pqGet_set_ne _ _ _ _ (by omega)]
        have h1 := h i hi0 hi
        have h2 := h j hj0 hjlen
        rw [hpj] at h2
        exact le_trans h1 h2
    · exact h

/-- One externally visible priority-queue mutation of astar.c. -/
inductive PQOp where
  | push (nodeId : Int) (fScore : WithTop ℚ)
  | pop
  | decrease (nodeId : Int) (fScore : WithTop ℚ)

/-- Apply one operation, discarding returned values (a failed push and a
pop of an empty queue leave the queue unchanged). -/
def pqApplyOp (pq : PriorityQueue) : PQOp → PriorityQueue
  | .push id f => (pq_push pq id f).2
  | .pop =>
    match pq_pop pq with
    | none => pq
    | some r => r.2.2
  | .decrease id f => pq_decrease_priority pq id f

/-- A whole operation sequence run from the empty queue of the given
capacity. -/
def pqRunOps (capacity : Nat) (ops : List PQOp) : PriorityQueue :=
  ops.foldl pqApplyOp ⟨[], capacity⟩

theorem pqApplyOp_heapProp (pq : PriorityQueue) (op : PQOp)
    (h : heapProp pq.nodes) : heapProp (pqApplyOp pq op).nodes := by
  match op with
  | .push id f => exact pq_push_heapProp pq id f h
  | .pop =>
    unfold pqApplyOp
    match hr : pq_pop pq with
    | none => exact h
    | some r => exact pq_pop_heapProp pq h r hr
  | .decrease id f => exact pq_decrease_heapProp pq id f h

/-- C9: starting from an empty queue, after every sequence of pq_push,
pq_pop and pq_decrease_priority operations the binary min-heap property
fScore[parent] <= fScore[child] holds for the stored array. -/
theorem C9_heap_property_all_ops (capacity : Nat) (ops : List PQOp) :
    heapProp (pqRunOps capacity ops).nodes := by
  suffices hstep : ∀ pq : PriorityQueue, heapProp pq.nodes →
      heapProp (ops.foldl pqApplyOp pq).nodes by
    refine hstep ⟨[], capacity⟩ ?_
    intro i hi0 hilen
    simp at hilen
  induction ops with
  | nil => exact fun pq h => h
  | cons op ops ih =>
    intro pq h
    exact ih _ (pqApplyOp_heapProp pq op h)

theorem getD_cons_set_perm (d a : PQNode) :
    ∀ (xs : List PQNode) (m : Nat), m < xs.length →
      (xs.getD m d :: xs.set m a).Perm (a :: xs) := by
  intro xs
  induction xs with
  | nil =>
    intro m h
    simp at h
  | cons x xs ih =>
    intro m hm
    cases m with
    | zero =>
      simp only [List.getD_cons_zero, List.set_cons_zero]
      exact List.Perm.swap a x xs
    | succ m =>
      simp only [List.getD_cons_succ, List.set_cons_succ]
      refine List.Perm.trans (List.Perm.swap x (xs.getD m d) (xs.set m a)) ?_
      refine List.Perm.trans (List.Perm.cons x (ih m (by simpa using hm))) ?_
      exact List.Perm.swap a x xs

theorem set_set_perm (d : PQNode) :
    ∀ (l : List PQNode) (i j : Nat), i < l.length → j < l.length →
      ((l.set i (l.getD j d)).set j (l.getD i d)).Perm l := by
  intro l
  induction l with
  | nil =>
    intro i j hi hj
    simp at hi
  | cons x xs ih =>
    intro i j hi hj
    cases i with
    | zero =>
      cases j with
      | zero => simp
      | succ j =>
        simp only [List.getD_cons_succ, List.getD_cons_zero, List.set_cons_zero,
          List.set_cons_succ]
        exact getD_cons_set_perm d x xs j (by simpa using hj)
    | succ i =>
      cases j with
      | zero =>
        simp only [List.getD_cons_succ, List.getD_cons_zero, List.set_cons_succ,
          List.set_cons_zero]
        exact getD_cons_set_perm d x xs i (by simpa using hi)
      | succ j =>
        simp only [List.getD_cons_succ, List.set_cons_succ]
        exact List.Perm.cons x (ih i j (by simpa using hi) (by simpa using hj))

theorem pq_swap_perm (l : List PQNode) (i j : Nat)
    (hi : i < l.length) (hj : j < l.length) : (pq_swap l i j).Perm l := by
  unfold pq_swap pqGet
  exact set_set_perm ⟨0, ⊤⟩ l i j hi hj

theorem pq_heapify_up_perm (k : Nat) :
    ∀ l : List PQNode, (pq_heapify_up l k).Perm l := by
  induction k using Nat.strong_induction_on with
  | _ k ih =>
    intro l
    rw [pq_heapify_up.eq_def]
    by_cases hk : 0 < k
    · rw [dif_pos hk]
      show (if (pqGet l k).fScore < (pqGet l ((k - 1) / 2)).fScore
        then pq_heapify_up (pq_swap l k ((k - 1) / 2)) ((k - 1) / 2) else l).Perm l
      by_cases hlt : (pqGet l k).fScore < (pqGet l ((k - 1) / 2)).fScore
      · rw [if_pos hlt]
        have hklen : k < l.length := by
          by_contra hout
          rw [pqGet_out l k (by omega)] at hlt
          exact absurd hlt (by simp)
        refine List.Perm.trans (ih ((k - 1) / 2) (by omega) _) ?_
        exact pq_swap_perm l k ((k - 1) / 2) hklen (by omega)
      · rw [if_neg hlt]
    · rw [dif_neg hk]

theorem pq_heapify_down_perm (m : Nat) :
    ∀ (l : List PQNode) (k : Nat), l.length - k ≤ m →
      (pq_heapify_down l k).Perm l := by
  induction m with
  | zero =>
    intro l k hm
    rw [pq_heapify_down.eq_def]
    have hs : ¬pqSmallest l k ≠ k := by
      intro hne
      obtain ⟨h1, h2⟩ := pqSmallest_ne l k hne
      omega
    rw [dif_neg hs]
  | succ m ih =>
    intro l k hm
    rw [pq_heapify_down.eq_def]
    by_cases hs : pqSmallest l k ≠ k
    · rw [dif_pos hs]
      obtain ⟨h1, h2⟩ := pqSmallest_ne l k hs
      refine List.Perm.trans (ih _ _ ?_) ?_
      · rw [pq_swap_length]
        omega
      · exact pq_swap_perm l k (pqSmallest l k) (by omega) h2
    · rw [dif_neg hs]

theorem last_cons_dropLast_perm (l : List PQNode) (h : l ≠ []) :
    (pqGet l (l.length - 1) :: l.dropLast).Perm l := by
  have hlen : 0 < l.length := List.length_pos.mpr h
  have hg : pqGet l (l.length - 1) = l.getLast h := by
    rw [List.getLast_eq_getElem]
    simp [pqGet, List.getD_eq_getElem?_getD,
      List.getElem?_eq_getElem (show l.length - 1 < l.length by omega)]
  rw [hg]
  refine List.Perm.trans (List.perm_append_singleton _ _).symm ?_
  rw [List.dropLast_append_getLast h]

theorem pq_pop_spec (pq : PriorityQueue) (c : Int) (f : WithTop ℚ)
    (pq2 : PriorityQueue) (h : pq_pop pq = some (c, f, pq2)) :
    pq.nodes ≠ [] ∧ pqGet pq.nodes 0 = ⟨c, f⟩ ∧
      pq2.nodes.Perm pq.nodes.tail ∧ pq2.capacity = pq.capacity := by
  obtain ⟨nodes, cap⟩ := pq
  rcases nodes with _ | ⟨root, rest⟩
  · cases h
  · unfold pq_pop at h
    dsimp only at h ⊢
    by_cases hre : rest.isEmpty
    · rw [if_pos hre] at h
      rw [List.isEmpty_iff] at hre
      subst hre
      simp only [Option.some.injEq, Prod.mk.injEq] at h
      obtain ⟨h1, h2, h3⟩ := h
      subst h1 h2
      rw [← h3]
      refine ⟨by simp, rfl, ?_, rfl⟩
      simp
    · rw [if_neg hre] at h
      simp only [Option.some.injEq, Prod.mk.injEq] at h
      obtain ⟨h1, h2, h3⟩ := h
      subst h1 h2
      rw [← h3]
      refine ⟨by simp, rfl, ?_, rfl⟩
      dsimp only
      have hne : root :: rest ≠ [] := by simp
      refine List.Perm.trans (pq_heapify_down_perm
        (((root :: rest).dropLast.set 0
          (pqGet (root :: rest) ((root :: rest).length - 1))).length) _ 0
        (le_refl _)) ?_
      have hrne : rest ≠ [] := by
        intro hx
        subst hx
        simp at hre
      rcases rest with _ | ⟨a, rest2⟩
      · simp at hrne
      · show (((root :: a :: rest2).dropLast).set 0
          (pqGet (root :: a :: rest2) ((root :: a :: rest2).length - 1))).Perm
          (a :: rest2)
        have hd : (root :: a :: rest2).dropLast = root :: (a :: rest2).dropLast := rfl
        rw [hd, List.set_cons_zero]
        have hlast : pqGet (root :: a :: rest2) ((root :: a :: rest2).length - 1) =
            pqGet (a :: rest2) ((a :: rest2).length - 1) := by
          simp only [List.length_cons]
          simp [pqGet, List.getD_eq_getElem?_getD]
        rw [hlast]
        exact last_cons_dropLast_perm (a :: rest2) (by simp)

theorem pq_push_spec (pq : PriorityQueue) (id : Int) (f : WithTop ℚ) :
    (pq.capacity ≤ pq.nodes.length ∧ pq_push pq id f = (false, pq)) ∨
    (pq.nodes.length < pq.capacity ∧ (pq_push pq id f).1 = true ∧
      (pq_push pq id f).2.nodes.Perm (pq.nodes ++ [⟨id, f⟩]) ∧
      (pq_push pq id f).2.capacity = pq.capacity) := by
  unfold pq_push
  by_cases hcap : pq.capacity ≤ pq.nodes.length
  · rw [if_pos hcap]
    exact Or.inl ⟨hcap, rfl⟩
  · rw [if_neg hcap]
    refine Or.inr ⟨by omega, rfl, ?_, rfl⟩
    exact pq_heapify_up_perm pq.nodes.length (pq.nodes ++ [⟨id, f⟩])

theorem pq_decrease_spec (pq : PriorityQueue) (id : Int) (f : WithTop ℚ) :
    (pq.nodes.findIdx? (fun nd => nd.nodeId == id) = none ∧
      pq_decrease_priority pq id f = (pq_push pq id f).2) ∨
    (∃ i, i < pq.nodes.length ∧
      pq.nodes.findIdx? (fun nd => nd.nodeId == id) = some i ∧
      (pqGet pq.nodes i).nodeId = id ∧
      ((f < (pqGet pq.nodes i).fScore ∧
        (pq_decrease_priority pq id f).nodes.Perm
          (pq.nodes.set i ⟨(pqGet pq.nodes i).nodeId, f⟩) ∧
        (pq_decrease_priority pq id f).capacity = pq.capacity) ∨
       (¬ f < (pqGet pq.nodes i).fScore ∧
        pq_decrease_priority pq id f = pq))) := by
  unfold pq_decrease_priority
  cases hidx : pq.nodes.findIdx? (fun nd => nd.nodeId == id) with
  | none => exact Or.inl ⟨rfl, rfl⟩
  | some i =>
    obtain ⟨hi, hp, -⟩ := List.findIdx?_eq_some_iff_getElem.mp hidx
    right
    refine ⟨i, hi, rfl, ?_, ?_⟩
    · have : pq.nodes[i] = pqGet pq.nodes i := by
        simp [pqGet, List.getD_eq_getElem?_getD, List.getElem?_eq_getElem hi]
      rw [this] at hp
      exact eq_of_beq hp
    · dsimp only
      by_cases hlt : f < (pqGet pq.nodes i).fScore
      · rw [if_pos hlt]
        exact Or.inl ⟨hlt, pq_heapify_up_perm i _, rfl⟩
      · rw [if_neg hlt]
        exact Or.inr ⟨hlt, rfl⟩

/-- Data-model invariant of the graph store (section 3 of the spec, kept
by the graph API): every stored edge's target id is a valid index. -/
def edgesInRange (g : Graph) : Prop :=
  ∀ i j, i < g.nodeCount.toNat → j < (g.edgeCounts i).toNat →
    0 ≤ (g.edges i j).«to» ∧ (g.edges i j).«to» < g.nodeCount

/-- The node ids currently stored in the open-set heap. -/
def heapIds (st : AStarState) : List Int :=
  st.openSet.nodes.map (fun e => e.nodeId)

/-- The loop invariant of astar_find_path relating the open-set heap, the
membership flag arrays, the score arrays and the ghost instrumentation. -/
structure AStarInv (sqrtf : ℚ → ℚ) (g : Graph) (cfg : AStarConfig)
    (goalId : Int) (st : AStarState) : Prop where
  capEq : st.openSet.capacity = g.nodeCount.toNat
  nodup : (heapIds st).Nodup
  openSync : ∀ v : Nat, v < g.nodeCount.toNat →
    (st.inOpenSet v = true ↔ (v : Int) ∈ heapIds st)
  idsRange : ∀ x ∈ heapIds st, ∃ v : Nat, v < g.nodeCount.toNat ∧ x = (v : Int)
  openHigh : ∀ v : Nat, g.nodeCount.toNat ≤ v → st.inOpenSet v = false
  closedHigh : ∀ v : Nat, g.nodeCount.toNat ≤ v → st.inClosedSet v = false
  disj : ∀ v : Nat, ¬(st.inOpenSet v = true ∧ st.inClosedSet v = true)
  pushedChar : ∀ v : Nat, v < g.nodeCount.toNat →
    ((v : Int) ∈ st.pushedIds ↔ (st.inOpenSet v = true ∨ st.inClosedSet v = true))
  pushedRange : ∀ x ∈ st.pushedIds, ∃ v : Nat, v < g.nodeCount.toNat ∧ x = (v : Int)
  pushedNodup : st.pushedIds.Nodup
  pushOk : st.pushAllOk = true
  decFound : st.decreaseAllFound = true
  heap : heapProp st.openSet.nodes
  keySync : ∀ e ∈ st.openSet.nodes, e.fScore = st.fScore e.nodeId.toNat
  fgSync : ∀ v : Nat, v < g.nodeCount.toNat → st.inOpenSet v = true →
    st.fScore v = st.gScore v +
      ((astar_heuristic sqrtf (g.nodes v) (g.nodes goalId.toNat) cfg.heuristic *
        cfg.heuristicWeight : ℚ) : WithTop ℚ)
  maxB : st.maxOpenSetSize ≤ (g.nodeCount.toNat : Int)

/-- A nodup list of ids all below N has at most N elements. -/
theorem nodupIntList_length_le (N : Nat) (l : List Int) (hn : l.Nodup)
    (hr : ∀ x ∈ l, ∃ v : Nat, v < N ∧ x = (v : Int)) : l.length ≤ N := by
  classical
  have hsub : l.toFinset ⊆ (Finset.range N).image (fun v : Nat => (v : Int)) := by
    intro x hx
    rw [List.mem_toFinset] at hx
    obtain ⟨v, hv, rfl⟩ := hr x hx
    exact Finset.mem_image.mpr ⟨v, Finset.mem_range.mpr hv, rfl⟩
  have hcard := Finset.card_le_card hsub
  rw [List.toFinset_card_of_nodup hn] at hcard
  calc l.length ≤ ((Finset.range N).image (fun v : Nat => (v : Int))).card := hcard
    _ ≤ (Finset.range N).card := Finset.card_image_le
    _ = N := Finset.card_range N

/-- The conclusions of claim C10 about a search state: no pq_push was
ever rejected, every pq_decrease_priority found its target, no node id
was pushed twice, and the open set never outgrew nodeCount. -/
def C10Post (g : Graph) (st : AStarState) : Prop :=
  st.pushAllOk = true ∧ st.decreaseAllFound = true ∧ st.pushedIds.Nodup ∧
    st.maxOpenSetSize ≤ (g.nodeCount.toNat : Int) ∧
    st.openSet.nodes.length ≤ g.nodeCount.toNat

theorem AStarInv.toC10Post (sqrtf : ℚ → ℚ) (g : Graph) (cfg : AStarConfig)
    (goalId : Int) (st : AStarState)
    (inv : AStarInv sqrtf g cfg goalId st) : C10Post g st := by
  refine ⟨inv.pushOk, inv.decFound, inv.pushedNodup, inv.maxB, ?_⟩
  have := nodupIntList_length_le g.nodeCount.toNat (heapIds st) inv.nodup inv.idsRange
  simpa [heapIds] using this

theorem astar_init_eq (sqrtf : ℚ → ℚ) (g : Graph) (c : AStarConfig)
    (s t : Int) (hN : 0 < g.nodeCount.toNat) :
    astar_init sqrtf g c s t =
      { gScore := Function.update (fun _ => ⊤) s.toNat 0
        fScore := Function.update (fun _ => ⊤) s.toNat
          ((astar_heuristic sqrtf (g.nodes s.toNat) (g.nodes t.toNat) c.heuristic *
            c.heuristicWeight : ℚ) : WithTop ℚ)
        cameFrom := fun _ => -1
        inClosedSet := fun _ => false
        inOpenSet := Function.update (fun _ => false) s.toNat true
        openSet := ⟨[⟨s, ((astar_heuristic sqrtf (g.nodes s.toNat)
            (g.nodes t.toNat) c.heuristic * c.heuristicWeight : ℚ) : WithTop ℚ)⟩],
          g.nodeCount.toNat⟩
        nodesExplored := 0
        nodesInOpenSet := 0
        maxOpenSetSize := 1
        pushedIds := [s]
        pushAllOk := true
        decreaseAllFound := true
        closedList := [] } := by
  have hN2 : ¬ (g.nodeCount.toNat ≤ 0) := by omega
  unfold astar_init pq_push
  simp only [List.length_nil, hN2, if_false, List.nil_append]
  rw [pq_heapify_up.eq_def]
  simp only [Nat.lt_irrefl, dite_false]
  rw [Function.update_same]

theorem astar_init_inv (sqrtf : ℚ → ℚ) (g : Graph) (cfg : AStarConfig)
    (s t : Int) (hs0 : 0 ≤ s) (hs1 : s < g.nodeCount) :
    AStarInv sqrtf g cfg t (astar_init sqrtf g cfg s t) := by
  have hN : 0 < g.nodeCount.toNat := by omega
  have hsN : s.toNat < g.nodeCount.toNat := by omega
  have hcast : ((s.toNat : Int)) = s := Int.toNat_of_nonneg hs0
  rw [astar_init_eq sqrtf g cfg s t hN]
  constructor
  case capEq => rfl
  case nodup => simp [heapIds]
  case openSync =>
    intro v hv
    simp only [heapIds, List.map_cons, List.map_nil, List.mem_singleton]
    rw [Function.update_apply]
    by_cases hvs : v = s.toNat
    · rw [if_pos hvs]
      subst hvs
      simp [hcast]
    · rw [if_neg hvs]
      constructor
      · intro h
        simp at h
      · intro h
        exfalso
        omega
  case idsRange =>
    intro x hx
    simp only [heapIds, List.map_cons, List.map_nil, List.mem_singleton] at hx
    exact ⟨s.toNat, hsN, by rw [hx, hcast]⟩
  case openHigh =>
    intro v hv
    simp only
    rw [Function.update_apply, if_neg (by omega)]
  case closedHigh =>
    intro v hv
    rfl
  case disj =>
    intro v h
    exact absurd h.2 (by simp)
  case pushedChar =>
    intro v hv
    simp only [List.mem_singleton]
    rw [Function.update_apply]
    by_cases hvs : v = s.toNat
    · rw [if_pos hvs]
      subst hvs
      simp [hcast]
    · rw [if_neg hvs]
      constructor
      · intro h
        exfalso
        omega
      · intro h
        rcases h with h | h
        · simp at h
        · simp at h
  case pushedRange =>
    intro x hx
    simp only [List.mem_singleton] at hx
    exact ⟨s.toNat, hsN, by rw [hx, hcast]⟩
  case pushedNodup => simp
  case pushOk => rfl
  case decFound => rfl
  case heap =>
    intro i hi0 hilen
    simp at hilen
    omega
  case keySync =>
    intro e he
    simp only [List.mem_singleton] at he
    subst he
    simp only
    rw [Function.update_same]
  case fgSync =>
    intro v hv hopen
    simp only at hopen ⊢
    rw [Function.update_apply] at hopen
    by_cases hvs : v = s.toNat
    · subst hvs
      rw [Function.update_same, Function.update_same, zero_add]
    · rw [if_neg hvs] at hopen
      simp at hopen
  case maxB =>
    simp only
    exact_mod_cast hN

theorem pqGet_mem (l : List PQNode) (i : Nat) (h : i < l.length) :
    pqGet l i ∈ l := by
  have : pqGet l i = l[i] := by
    simp [pqGet, List.getD_eq_getElem?_getD, List.getElem?_eq_getElem h]
  rw [this]
  exact List.getElem_mem h

theorem list_set_getD_self (l : List Int) (i : Nat) (d : Int)
    (h : i < l.length) : l.set i (l.getD i d) = l := by
  apply List.ext_getElem?
  intro j
  by_cases hij : j = i
  · subst hij
    rw [List.getElem?_set_self h, List.getD_eq_getElem?_getD,
      List.getElem?_eq_getElem h]
    rfl
  · rw [List.getElem?_set_ne (Ne.symm hij)]

theorem nodupIntList_length_lt (N x : Nat) (l : List Int) (hn : l.Nodup)
    (hr : ∀ y ∈ l, ∃ v : Nat, v < N ∧ y = (v : Int)) (hx : x < N)
    (hnot : ((x : Nat) : Int) ∉ l) : l.length < N := by
  have h1 : (((x : Nat) : Int) :: l).Nodup := List.nodup_cons.mpr ⟨hnot, hn⟩
  have h2 : ∀ y ∈ ((x : Nat) : Int) :: l, ∃ v : Nat, v < N ∧ y = (v : Int) := by
    intro y hy
    rcases List.mem_cons.mp hy with hy | hy
    · exact ⟨x, hx, hy⟩
    · exact hr y hy
  have := nodupIntList_length_le N _ h1 h2
  simp only [List.length_cons] at this
  omega

theorem pqGet_eq_getElem (l : List PQNode) (i : Nat) (h : i < l.length) :
    pqGet l i = l[i] := by
  simp [pqGet, List.getD_eq_getElem?_getD, List.getElem?_eq_getElem h]

theorem list_set_self {α : Type} (l : List α) (i : Nat) (v : α)
    (h : l[i]? = some v) : l.set i v = l := by
  have hlen : i < l.length := by
    by_contra hc
    rw [List.getElem?_eq_none (by omega)] at h
    cases h
  apply List.ext_getElem?
  intro j
  by_cases hij : j = i
  · subst hij
    rw [List.getElem?_set_self hlen, h]
  · rw [List.getElem?_set_ne (Ne.symm hij)]

theorem nodup_map_nodeId_pos_inj (l : List PQNode)
    (hn : (l.map (fun e => e.nodeId)).Nodup) (i j : Nat)
    (hi : i < l.length) (hj : j < l.length)
    (hEq : (l.get ⟨i, hi⟩).nodeId = (l.get ⟨j, hj⟩).nodeId) : i = j := by
  have hi2 : i < (l.map (fun e => e.nodeId)).length := by simpa using hi
  have hj2 : j < (l.map (fun e => e.nodeId)).length := by simpa using hj
  have h1 : (l.map (fun e => e.nodeId)).get ⟨i, hi2⟩ =
      (l.map (fun e => e.nodeId)).get ⟨j, hj2⟩ := by
    simp only [List.get_eq_getElem, List.getElem_map]
    simp only [List.get_eq_getElem] at hEq
    exact hEq
  have h2 := hn.get_inj_iff.mp h1
  simpa using h2

theorem astar_relax_inv (sqrtf : ℚ → ℚ) (g : Graph) (cfg : AStarConfig)
    (goalId : Int) (cv : Nat) (st : AStarState) (i : Nat)
    (hwf : edgesInRange g)
    (hcvN : cv < g.nodeCount.toNat)
    (hi : i < (g.edgeCounts cv).toNat)
    (inv : AStarInv sqrtf g cfg goalId st) :
    AStarInv sqrtf g cfg goalId
      (astar_relax sqrtf g cfg goalId ((cv : Nat) : Int) st i) := by
  have hto := hwf cv i hcvN hi
  simp only [astar_relax, Int.toNat_natCast]
  by_cases hact : (g.edges cv i).active = false
  · rw [if_pos hact]
    exact inv
  · rw [if_neg hact]
    set nb := (g.edges cv i).«to» with hnb
    obtain ⟨hnb0, hnb1⟩ := hto
    set x := nb.toNat with hx
    have hxN : x < g.nodeCount.toNat := by omega
    have hxcast : ((x : Nat) : Int) = nb := Int.toNat_of_nonneg hnb0
    by_cases hna : (g.nodes x).active = false
    · rw [if_pos hna]
      exact inv
    · rw [if_neg hna]
      by_cases hclosed : st.inClosedSet x
      · rw [if_pos hclosed]
        exact inv
      · rw [if_neg hclosed]
        by_cases htent : st.gScore cv + ((g.edges cv i).weight : WithTop ℚ) <
            st.gScore x
        · rw [if_pos htent]
          by_cases hopen : st.inOpenSet x = false
          · rw [if_pos hopen]
            rw [← hxcast]
            set tent := st.gScore cv + ((g.edges cv i).weight : WithTop ℚ) with htdef
            set hval := astar_heuristic sqrtf (g.nodes x) (g.nodes goalId.toNat)
              cfg.heuristic * cfg.heuristicWeight with hhdef
            have hxnot : ((x : Nat) : Int) ∉ heapIds st := by
              intro hmem
              have h1 := (inv.openSync x hxN).mpr hmem
              rw [hopen] at h1
              cases h1
            have hxnotP : ((x : Nat) : Int) ∉ st.pushedIds := by
              intro hmem
              rcases (inv.pushedChar x hxN).mp hmem with h1 | h1
              · rw [hopen] at h1; cases h1
              · exact hclosed h1
            have hlen_lt : st.openSet.nodes.length < g.nodeCount.toNat := by
              have h2 := nodupIntList_length_lt g.nodeCount.toNat x (heapIds st)
                inv.nodup inv.idsRange hxN hxnot
              simpa [heapIds] using h2
            rcases pq_push_spec st.openSet ((x : Nat) : Int)
                (tent + (hval : WithTop ℚ)) with ⟨hcap, -⟩ | ⟨-, hok, hperm, hcapeq⟩
            · rw [inv.capEq] at hcap; omega
            have hidperm : ((pq_push st.openSet ((x : Nat) : Int)
                (tent + (hval : WithTop ℚ))).2.nodes.map (fun e => e.nodeId)).Perm
                (heapIds st ++ [((x : Nat) : Int)]) := by
              simpa [heapIds] using hperm.map (fun e => e.nodeId)
            refine ⟨?_, ?_, ?_, ?_, ?_, ?_, ?_, ?_, ?_, ?_, ?_, ?_, ?_, ?_, ?_, ?_⟩
            ·
              dsimp only
              rw [hcapeq]; exact inv.capEq
            ·
              dsimp only [heapIds]
              rw [hidperm.nodup_iff, List.nodup_append]
              refine ⟨inv.nodup, List.nodup_singleton _, ?_⟩
              intro a ha hb
              rw [List.mem_singleton] at hb
              subst hb
              exact hxnot ha
            ·
              dsimp only [heapIds]
              intro v hv
              rw [hidperm.mem_iff, List.mem_append, List.mem_singleton,
                Function.update_apply]
              by_cases hvx : v = x
              · subst hvx
                rw [if_pos rfl]
                constructor
                · intro _; exact Or.inr rfl
                · intro _; rfl
              · rw [if_neg hvx, inv.openSync v hv]
                constructor
                · exact fun h => Or.inl h
                · rintro (h | h)
                  · exact h
                  · exact absurd (Int.natCast_inj.mp h) hvx
            ·
              dsimp only [heapIds]
              intro y hy
              rw [hidperm.mem_iff, List.mem_append, List.mem_singleton] at hy
              rcases hy with hy | hy
              · exact inv.idsRange y hy
              · exact ⟨x, hxN, hy⟩
            ·
              dsimp only
              intro v hv
              rw [Function.update_apply, if_neg (by omega : ¬ v = x)]
              exact inv.openHigh v hv
            ·
              dsimp only
              intro v hv
              exact inv.closedHigh v hv
            ·
              dsimp only
              intro v hv
              obtain ⟨h1, h2⟩ := hv
              by_cases hvx : v = x
              · subst hvx
                exact hclosed h2
              · rw [Function.update_apply, if_neg hvx] at h1
                exact inv.disj v ⟨h1, h2⟩
            ·
              dsimp only
              intro v hv
              rw [List.mem_append, List.mem_singleton, Function.update_apply]
              by_cases hvx : v = x
              · subst hvx
                rw [if_pos rfl]
                constructor
                · intro _; exact Or.inl rfl
                · intro _; exact Or.inr rfl
              · rw [if_neg hvx, inv.pushedChar v hv]
                constructor
                · rintro (h | h)
                  · exact h
                  · exact absurd (Int.natCast_inj.mp h) hvx
                · exact fun h => Or.inl h
            ·
              dsimp only
              intro y hy
              rw [List.mem_append, List.mem_singleton] at hy
              rcases hy with hy | hy
              · exact inv.pushedRange y hy
              · exact ⟨x, hxN, hy⟩
            ·
              dsimp only
              rw [List.nodup_append]
              refine ⟨inv.pushedNodup, List.nodup_singleton _, ?_⟩
              intro a ha hb
              rw [List.mem_singleton] at hb
              subst hb
              exact hxnotP ha
            ·
              dsimp only
              rw [inv.pushOk, hok]
              rfl
            ·
              dsimp only
              exact inv.decFound
            ·
              dsimp only
              exact pq_push_heapProp st.openSet _ _ inv.heap
            ·
              dsimp only
              intro e he
              rw [hperm.mem_iff, List.mem_append, List.mem_singleton] at he
              rcases he with he | he
              · have hmem : e.nodeId ∈ heapIds st := List.mem_map_of_mem _ he
                obtain ⟨v, hvN, hveq⟩ := inv.idsRange e.nodeId hmem
                have hvx : v ≠ x := by
                  intro h
                  subst h
                  exact hxnot (hveq ▸ hmem)
                rw [inv.keySync e he, hveq, Int.toNat_natCast,
                  Function.update_apply, if_neg hvx]
              · subst he
                simp [Function.update_apply]
            ·
              dsimp only
              intro v hv hvo
              by_cases hvx : v = x
              · subst hvx
                rw [Function.update_apply, if_pos rfl, Function.update_apply,
                  if_pos rfl, hhdef]
              · rw [Function.update_apply, if_neg hvx] at hvo
                rw [Function.update_apply, if_neg hvx, Function.update_apply,
                  if_neg hvx]
                exact inv.fgSync v hv hvo
            ·
              dsimp only
              have hlen1 : (pq_push st.openSet ((x : Nat) : Int)
                  (tent + (hval : WithTop ℚ))).2.nodes.length =
                  st.openSet.nodes.length + 1 := by
                rw [hperm.length_eq]
                simp
              split_ifs with hc
              · rw [hlen1]
                have h2 : st.openSet.nodes.length + 1 ≤ g.nodeCount.toNat := by
                  omega
                exact_mod_cast h2
              · exact inv.maxB
          · rw [if_neg hopen]
            rw [← hxcast]
            set tent := st.gScore cv + ((g.edges cv i).weight : WithTop ℚ) with htdef
            set hval := astar_heuristic sqrtf (g.nodes x) (g.nodes goalId.toNat)
              cfg.heuristic * cfg.heuristicWeight with hhdef
            have hopen2 : st.inOpenSet x = true := by
              cases h2 : st.inOpenSet x
              · exact absurd h2 hopen
              · rfl
            have hmem : ((x : Nat) : Int) ∈ heapIds st :=
              (inv.openSync x hxN).mp hopen2
            rcases pq_decrease_spec st.openSet ((x : Nat) : Int)
                (tent + (hval : WithTop ℚ)) with ⟨hnone, -⟩ |
                ⟨i2, hilen, hfind, hid, hbr⟩
            · exfalso
              obtain ⟨e, hemem, heid⟩ := List.mem_map.mp hmem
              have h2 := List.findIdx?_eq_none_iff.mp hnone e hemem
              simp [heid] at h2
            have hstored : (pqGet st.openSet.nodes i2).fScore = st.fScore x := by
              rw [inv.keySync (pqGet st.openSet.nodes i2) (pqGet_mem _ _ hilen),
                hid, Int.toNat_natCast]
            have hfx : st.fScore x = st.gScore x + (hval : WithTop ℚ) := by
              rw [inv.fgSync x hxN hopen2, hhdef]
            have hflt : tent + (hval : WithTop ℚ) <
                (pqGet st.openSet.nodes i2).fScore := by
              rw [hstored, hfx]
              exact WithTop.add_lt_add_right WithTop.coe_ne_top htent
            rcases hbr with ⟨-, hperm, hcapeq⟩ | ⟨hnlt, -⟩
            swap
            · exact absurd hflt hnlt
            have hid2 := hid
            rw [pqGet_eq_getElem st.openSet.nodes i2 hilen] at hid2
            have hgetx : (heapIds st)[i2]? = some ((x : Nat) : Int) := by
              have h1 : i2 < (heapIds st).length := by simpa [heapIds] using hilen
              rw [List.getElem?_eq_getElem h1]
              have h2 : (heapIds st)[i2] = (st.openSet.nodes[i2]).nodeId := by
                simp [heapIds]
              rw [h2]
              exact congrArg some hid2
            have hsetids : (heapIds st).set i2 ((x : Nat) : Int) = heapIds st :=
              list_set_self _ _ _ hgetx
            have hids_perm : ((pq_decrease_priority st.openSet ((x : Nat) : Int)
                (tent + (hval : WithTop ℚ))).nodes.map (fun e => e.nodeId)).Perm
                (heapIds st) := by
              have h2 := hperm.map (fun e => e.nodeId)
              rw [List.map_set] at h2
              simp only [hid] at h2
              rw [← hsetids]
              exact h2
            refine ⟨?_, ?_, ?_, ?_, ?_, ?_, ?_, ?_, ?_, ?_, ?_, ?_, ?_, ?_, ?_, ?_⟩
            ·
              dsimp only
              rw [hcapeq]; exact inv.capEq
            ·
              dsimp only [heapIds]
              rw [hids_perm.nodup_iff]
              exact inv.nodup
            ·
              dsimp only [heapIds]
              intro v hv
              rw [hids_perm.mem_iff]
              exact inv.openSync v hv
            ·
              dsimp only [heapIds]
              intro y hy
              rw [hids_perm.mem_iff] at hy
              exact inv.idsRange y hy
            ·
              dsimp only
              exact inv.openHigh
            ·
              dsimp only
              exact inv.closedHigh
            ·
              dsimp only
              exact inv.disj
            ·
              dsimp only
              exact inv.pushedChar
            ·
              dsimp only
              exact inv.pushedRange
            ·
              dsimp only
              exact inv.pushedNodup
            ·
              dsimp only
              exact inv.pushOk
            ·
              dsimp only
              rw [inv.decFound, hfind]
              rfl
            ·
              dsimp only
              exact pq_decrease_heapProp st.openSet _ _ inv.heap
            ·
              dsimp only
              intro e he
              rw [hperm.mem_iff] at he
              obtain ⟨j, hje⟩ := List.mem_iff_getElem?.mp he
              by_cases hji : j = i2
              · subst hji
                rw [List.getElem?_set_self hilen] at hje
                obtain he2 := Option.some.inj hje
                subst he2
                dsimp only
                rw [hid, Int.toNat_natCast, Function.update_apply, if_pos rfl]
              · rw [List.getElem?_set_ne (Ne.symm hji)] at hje
                have hjlen : j < st.openSet.nodes.length := by
                  by_contra hc
                  rw [List.getElem?_eq_none (by omega)] at hje
                  cases hje
                rw [List.getElem?_eq_getElem hjlen] at hje
                obtain he2 := Option.some.inj hje
                have hemem2 : e ∈ st.openSet.nodes := he2 ▸ List.getElem_mem hjlen
                have hne : e.nodeId ≠ ((x : Nat) : Int) := by
                  intro hEq
                  apply hji
                  apply nodup_map_nodeId_pos_inj st.openSet.nodes inv.nodup
                    j i2 hjlen hilen
                  simp only [List.get_eq_getElem]
                  rw [he2, hEq]
                  exact hid2.symm
                obtain ⟨v, hvN, hveq⟩ := inv.idsRange e.nodeId
                  (List.mem_map_of_mem _ hemem2)
                have hvx : v ≠ x := by
                  intro h2
                  subst h2
                  exact hne hveq
                rw [inv.keySync e hemem2, hveq, Int.toNat_natCast,
                  Function.update_apply, if_neg hvx]
            ·
              dsimp only
              intro v hv hvo
              by_cases hvx : v = x
              · subst hvx
                rw [Function.update_apply, if_pos rfl, Function.update_apply,
                  if_pos rfl, hhdef]
              · rw [Function.update_apply, if_neg hvx, Function.update_apply,
                  if_neg hvx]
                exact inv.fgSync v hv hvo
            ·
              dsimp only
              exact inv.maxB
        · rw [if_neg htent]
          exact inv

theorem astar_relax_foldl_inv (sqrtf : ℚ → ℚ) (g : Graph) (cfg : AStarConfig)
    (goalId : Int) (cv : Nat) (n : Nat) (st : AStarState)
    (hwf : edgesInRange g) (hcvN : cv < g.nodeCount.toNat)
    (hn : n ≤ (g.edgeCounts cv).toNat)
    (inv : AStarInv sqrtf g cfg goalId st) :
    AStarInv sqrtf g cfg goalId
      ((List.range n).foldl
        (astar_relax sqrtf g cfg goalId ((cv : Nat) : Int)) st) := by
  induction n generalizing st with
  | zero => simpa using inv
  | succ m ih =>
    rw [List.range_succ, List.foldl_append]
    exact astar_relax_inv sqrtf g cfg goalId cv _ m hwf hcvN (by omega)
      (ih st (by omega) inv)

theorem astar_close_state_inv (sqrtf : ℚ → ℚ) (g : Graph)
    (cfg : AStarConfig) (goalId : Int) (st : AStarState) (f0 : WithTop ℚ)
    (os1 : PriorityQueue) (cv : Nat) (hcvN : cv < g.nodeCount.toNat)
    (hpop : pq_pop st.openSet = some (((cv : Nat) : Int), f0, os1))
    (inv : AStarInv sqrtf g cfg goalId st) :
    AStarInv sqrtf g cfg goalId
      { st with
          openSet := os1
          inOpenSet := Function.update st.inOpenSet cv false
          nodesExplored := st.nodesExplored + 1
          inClosedSet := Function.update st.inClosedSet cv true
          closedList := st.closedList ++ [cv] } := by
  obtain ⟨hne, hroot, hperm, hcap⟩ := pq_pop_spec st.openSet _ f0 os1 hpop
  have htlen : 0 < st.openSet.nodes.length := List.length_pos.mpr hne
  have hcmem : ((cv : Nat) : Int) ∈ heapIds st := by
    have h1 : pqGet st.openSet.nodes 0 ∈ st.openSet.nodes :=
      pqGet_mem _ _ htlen
    rw [hroot] at h1
    have h2 := List.mem_map_of_mem (fun e => e.nodeId) h1
    exact h2
  have hopenc : st.inOpenSet cv = true :=
    (inv.openSync cv hcvN).mpr hcmem
  have hclosedc : st.inClosedSet cv = false := by
    cases h2 : st.inClosedSet cv
    · rfl
    · exact absurd ⟨hopenc, h2⟩ (inv.disj cv)
  have hcons : st.openSet.nodes =
      ⟨((cv : Nat) : Int), f0⟩ :: st.openSet.nodes.tail := by
    cases hn2 : st.openSet.nodes with
    | nil => rw [hn2] at htlen; simp at htlen
    | cons a l =>
      rw [hn2] at hroot
      have h3 : pqGet (a :: l) 0 = a := by simp [pqGet]
      rw [h3] at hroot
      rw [hroot]
      simp
  have hids : heapIds st =
      ((cv : Nat) : Int) :: st.openSet.nodes.tail.map (fun e => e.nodeId) := by
    unfold heapIds
    conv_lhs => rw [hcons]
    simp
  obtain ⟨hcvnotin, htailnodup⟩ : ((cv : Nat) : Int) ∉
      st.openSet.nodes.tail.map (fun e => e.nodeId) ∧
      (st.openSet.nodes.tail.map (fun e => e.nodeId)).Nodup := by
    have h2 := inv.nodup
    rw [hids] at h2
    exact List.nodup_cons.mp h2
  have hperm_ids : (os1.nodes.map (fun e => e.nodeId)).Perm
      (st.openSet.nodes.tail.map (fun e => e.nodeId)) :=
    hperm.map (fun e => e.nodeId)
  refine ⟨?_, ?_, ?_, ?_, ?_, ?_, ?_, ?_, ?_, ?_, ?_, ?_, ?_, ?_, ?_, ?_⟩
  ·
    dsimp only
    rw [hcap]
    exact inv.capEq
  ·
    dsimp only [heapIds]
    rw [hperm_ids.nodup_iff]
    exact htailnodup
  ·
    dsimp only [heapIds]
    intro v hv
    rw [hperm_ids.mem_iff, Function.update_apply]
    by_cases hvx : v = cv
    · subst hvx
      rw [if_pos rfl]
      constructor
      · intro h2; cases h2
      · intro h2; exact absurd h2 hcvnotin
    · rw [if_neg hvx]
      rw [inv.openSync v hv, hids, List.mem_cons]
      constructor
      · rintro (h2 | h2)
        · exact absurd (Int.natCast_inj.mp h2) hvx
        · exact h2
      · exact fun h2 => Or.inr h2
  ·
    dsimp only [heapIds]
    intro y hy
    rw [hperm_ids.mem_iff] at hy
    apply inv.idsRange y
    rw [hids]
    exact List.mem_cons_of_mem _ hy
  ·
    dsimp only
    intro v hv
    rw [Function.update_apply, if_neg (by omega : ¬ v = cv)]
    exact inv.openHigh v hv
  ·
    dsimp only
    intro v hv
    rw [Function.update_apply, if_neg (by omega : ¬ v = cv)]
    exact inv.closedHigh v hv
  ·
    dsimp only
    intro v hv
    obtain ⟨h1, h2⟩ := hv
    by_cases hvx : v = cv
    · subst hvx
      rw [Function.update_apply, if_pos rfl] at h1
      cases h1
    · rw [Function.update_apply, if_neg hvx] at h1
      rw [Function.update_apply, if_neg hvx] at h2
      exact inv.disj v ⟨h1, h2⟩
  ·
    dsimp only
    intro v hv
    rw [Function.update_apply, Function.update_apply]
    by_cases hvx : v = cv
    · subst hvx
      rw [if_pos rfl, if_pos rfl]
      constructor
      · intro h2
        exact Or.inr rfl
      · intro h2
        exact (inv.pushedChar v hcvN).mpr (Or.inl hopenc)
    · rw [if_neg hvx, if_neg hvx]
      exact inv.pushedChar v hv
  ·
    dsimp only
    exact inv.pushedRange
  ·
    dsimp only
    exact inv.pushedNodup
  ·
    dsimp only
    exact inv.pushOk
  ·
    dsimp only
    exact inv.decFound
  ·
    dsimp only
    exact pq_pop_heapProp st.openSet inv.heap _ hpop
  ·
    dsimp only
    intro e he
    rw [hperm.mem_iff] at he
    exact inv.keySync e (List.mem_of_mem_tail he)
  ·
    dsimp only
    intro v hv hvo
    by_cases hvx : v = cv
    · subst hvx
      rw [Function.update_apply, if_pos rfl] at hvo
      cases hvo
    · rw [Function.update_apply, if_neg hvx] at hvo
      exact inv.fgSync v hv hvo
  ·
    dsimp only
    exact inv.maxB

theorem astar_step_inv (sqrtf : ℚ → ℚ) (g : Graph) (cfg : AStarConfig)
    (startId goalId : Int) (st : AStarState)
    (hwf : edgesInRange g)
    (inv : AStarInv sqrtf g cfg goalId st) :
    match astar_step sqrtf g cfg startId goalId st with
    | Sum.inl st1 => AStarInv sqrtf g cfg goalId st1
    | Sum.inr r => C10Post g r.2 := by
  unfold astar_step
  cases hpop : pq_pop st.openSet with
  | none =>
    dsimp only
    exact inv.toC10Post sqrtf g cfg goalId st
  | some pr =>
    obtain ⟨c, f, os1⟩ := pr
    obtain ⟨hne, hroot, hperm, hcap⟩ := pq_pop_spec st.openSet c f os1 hpop
    have htlen : 0 < st.openSet.nodes.length := List.length_pos.mpr hne
    have hcmem : c ∈ heapIds st := by
      have h1 : pqGet st.openSet.nodes 0 ∈ st.openSet.nodes :=
        pqGet_mem _ _ htlen
      rw [hroot] at h1
      have h2 := List.mem_map_of_mem (fun e => e.nodeId) h1
      exact h2
    obtain ⟨cv, hcvN, hceq⟩ := inv.idsRange c hcmem
    subst hceq
    have hopenc : st.inOpenSet cv = true :=
      (inv.openSync cv hcvN).mpr hcmem
    have hclosedc : st.inClosedSet cv = false := by
      cases h2 : st.inClosedSet cv
      · rfl
      · exact absurd ⟨hopenc, h2⟩ (inv.disj cv)
    have hcons : st.openSet.nodes =
        ⟨((cv : Nat) : Int), f⟩ :: st.openSet.nodes.tail := by
      cases hn2 : st.openSet.nodes with
      | nil => rw [hn2] at htlen; simp at htlen
      | cons a l =>
        rw [hn2] at hroot
        have h3 : pqGet (a :: l) 0 = a := by simp [pqGet]
        rw [h3] at hroot
        rw [hroot]
        simp
    have hids : heapIds st =
        ((cv : Nat) : Int) :: st.openSet.nodes.tail.map (fun e => e.nodeId) := by
      unfold heapIds
      conv_lhs => rw [hcons]
      simp
    obtain ⟨hcvnotin, htailnodup⟩ : ((cv : Nat) : Int) ∉
        st.openSet.nodes.tail.map (fun e => e.nodeId) ∧
        (st.openSet.nodes.tail.map (fun e => e.nodeId)).Nodup := by
      have h2 := inv.nodup
      rw [hids] at h2
      exact List.nodup_cons.mp h2
    have hperm_ids : (os1.nodes.map (fun e => e.nodeId)).Perm
        (st.openSet.nodes.tail.map (fun e => e.nodeId)) :=
      hperm.map (fun e => e.nodeId)
    have hlenN : st.openSet.nodes.length ≤ g.nodeCount.toNat := by
      have h2 := nodupIntList_length_le g.nodeCount.toNat (heapIds st)
        inv.nodup inv.idsRange
      simpa [heapIds] using h2
    dsimp only
    simp only [Int.toNat_natCast]
    by_cases hgoal : (((cv : Nat) : Int) == goalId) = true
    · rw [if_pos hgoal]
      dsimp only
      refine ⟨inv.pushOk, inv.decFound, inv.pushedNodup, inv.maxB, ?_⟩
      have h2 : os1.nodes.length = st.openSet.nodes.tail.length :=
        hperm.length_eq
      rw [h2, List.length_tail]
      omega
    · rw [if_neg hgoal]
      rw [if_neg (by simp [hclosedc])]
      apply astar_relax_foldl_inv sqrtf g cfg goalId cv _ _ hwf hcvN (le_refl _)
      exact astar_close_state_inv sqrtf g cfg goalId st f os1 cv hcvN hpop inv

theorem astar_loop_c10 (sqrtf : ℚ → ℚ) (g : Graph) (cfg : AStarConfig)
    (startId goalId : Int) (fuel : Nat) (st : AStarState)
    (hwf : edgesInRange g) (inv : AStarInv sqrtf g cfg goalId st) :
    C10Post g (astar_loop sqrtf g cfg startId goalId fuel st).2 := by
  induction fuel generalizing st with
  | zero =>
    exact inv.toC10Post sqrtf g cfg goalId st
  | succ m ih =>
    have h2 := astar_step_inv sqrtf g cfg startId goalId st hwf inv
    rw [astar_loop]
    cases hstep : astar_step sqrtf g cfg startId goalId st with
    | inl st1 =>
      rw [hstep] at h2
      exact ih st1 h2
    | inr r =>
      rw [hstep] at h2
      exact h2

/-- C10: during the run that astar_find_path performs for in-range start
and goal ids (the loop astar_loop started from astar_init with fuel
nodeCount + 1, exactly as in astar_find_path), no pq_push call is ever
rejected for capacity, every pq_decrease_priority call finds its target
in the heap, no node id is ever pushed twice (each push is guarded by
the open/closed flags, so an update of an open node always goes through
pq_decrease_priority), and the open-set heap never outgrows nodeCount:
the recorded maxOpenSetSize and the final heap size are at most
nodeCount.  The graph is assumed well-formed in the sense that every
stored edge of an in-range adjacency row points to an in-range node. -/
theorem C10_push_once_capacity_safe (sqrtf : ℚ → ℚ) (g : Graph)
    (config : Option AStarConfig) (s t : Int)
    (hwf : edgesInRange g) (hs0 : 0 ≤ s) (hs1 : s < g.nodeCount)
    (ht0 : 0 ≤ t) (ht1 : t < g.nodeCount) :
    C10Post g (astar_loop sqrtf g (config.getD astar_default_config) s t
      (g.nodeCount.toNat + 1)
      (astar_init sqrtf g (config.getD astar_default_config) s t)).2 :=
  astar_loop_c10 sqrtf g (config.getD astar_default_config) s t
    (g.nodeCount.toNat + 1) (astar_init sqrtf g (config.getD astar_default_config) s t)
    hwf
    (astar_init_inv sqrtf g (config.getD astar_default_config) s t hs0 hs1)

theorem C10_push_once_capacity_safe_witness :
    edgesInRange exGraphABEdge ∧ (0:Int) ≤ 0 ∧ (0:Int) < exGraphABEdge.nodeCount ∧
      (0:Int) ≤ 1 ∧ (1:Int) < exGraphABEdge.nodeCount ∧
      C10Post exGraphABEdge (astar_loop id exGraphABEdge
        ((none : Option AStarConfig).getD astar_default_config) 0 1
        (exGraphABEdge.nodeCount.toNat + 1)
        (astar_init id exGraphABEdge
          ((none : Option AStarConfig).getD astar_default_config) 0 1)).2 := by
  have hwf : edgesInRange exGraphABEdge := by
    intro i j hi hj
    have h0 : exGraphABEdge.nodeCount.toNat = 2 := by with_unfolding_all decide
    rw [h0] at hi
    interval_cases i
    · have h1 : (exGraphABEdge.edgeCounts 0).toNat = 1 := by
        with_unfolding_all decide
      rw [h1] at hj
      interval_cases j
      · with_unfolding_all decide
    · have h1 : (exGraphABEdge.edgeCounts 1).toNat = 0 := by
        with_unfolding_all decide
      omega
  refine ⟨hwf, le_refl _, by with_unfolding_all decide,
    by with_unfolding_all decide, by with_unfolding_all decide, ?_⟩
  exact C10_push_once_capacity_safe id exGraphABEdge none 0 1 hwf
    (le_refl _) (by with_unfolding_all decide) (by with_unfolding_all decide)
    (by with_unfolding_all decide)

/-- A directed walk out of node u, given as the list of adjacency-row
indices taken at each visited node: validity requires every visited node
in range and active (the neighbor filter of the main loop in astar.c
skips inactive nodes) and every edge taken stored, in range and active. -/
def validWalk (g : Graph) : Nat → List Nat → Prop
  | u, [] => u < g.nodeCount.toNat ∧ (g.nodes u).active = true
  | u, j :: js => u < g.nodeCount.toNat ∧ (g.nodes u).active = true ∧
      j < (g.edgeCounts u).toNat ∧ (g.edges u j).active = true ∧
      validWalk g ((g.edges u j).«to».toNat) js

/-- The node a walk ends at. -/
def walkEnd (g : Graph) : Nat → List Nat → Nat
  | u, [] => u
  | u, j :: js => walkEnd g ((g.edges u j).«to».toNat) js

/-- The total edge weight of a walk. -/
def walkCost (g : Graph) : Nat → List Nat → ℚ
  | _, [] => 0
  | u, j :: js => (g.edges u j).weight + walkCost g ((g.edges u j).«to».toNat) js

/-- All stored weights of in-range adjacency rows are nonnegative (the
"weight: non-negative cost" data invariant of the spec's Edge entity). -/
def weightsNonneg (g : Graph) : Prop :=
  ∀ i j, i < g.nodeCount.toNat → j < (g.edgeCounts i).toNat →
    0 ≤ (g.edges i j).weight

theorem walkCost_nonneg (g : Graph) (hw : weightsNonneg g) :
    ∀ js u, validWalk g u js → 0 ≤ walkCost g u js := by
  intro js
  induction js with
  | nil => intro u _; simp [walkCost]
  | cons j rest ih =>
    intro u hv
    obtain ⟨hu, -, hj, -, hrest⟩ := hv
    have h1 := ih _ hrest
    have h2 := hw u j hu hj
    simp only [walkCost]
    linarith

theorem validWalk_append_one (g : Graph) (js : List Nat) :
    ∀ u j, validWalk g u js →
    j < (g.edgeCounts (walkEnd g u js)).toNat →
    (g.edges (walkEnd g u js) j).active = true →
    ((g.edges (walkEnd g u js) j).«to».toNat) < g.nodeCount.toNat →
    (g.nodes ((g.edges (walkEnd g u js) j).«to».toNat)).active = true →
    validWalk g u (js ++ [j]) ∧
      walkEnd g u (js ++ [j]) = (g.edges (walkEnd g u js) j).«to».toNat ∧
      walkCost g u (js ++ [j]) =
        walkCost g u js + (g.edges (walkEnd g u js) j).weight := by
  induction js with
  | nil =>
    intro u j hv hj hact hxN hxact
    obtain ⟨hu, hua⟩ := hv
    simp only [walkEnd] at hj hact hxN hxact
    refine ⟨⟨hu, hua, hj, hact, hxN, hxact⟩, ?_, ?_⟩
    · simp [walkEnd]
    · simp [walkCost, walkEnd]
  | cons j0 rest ih =>
    intro u j hv hj hact hxN hxact
    obtain ⟨hu, hua, hj0, hact0, hrest⟩ := hv
    simp only [walkEnd] at hj hact hxN hxact
    obtain ⟨h1, h2, h3⟩ := ih _ j hrest hj hact hxN hxact
    refine ⟨⟨hu, hua, hj0, hact0, h1⟩, ?_, ?_⟩
    · simpa [walkEnd] using h2
    · show walkCost g u (j0 :: (rest ++ [j])) = _
      rw [show walkCost g u (j0 :: (rest ++ [j])) =
        (g.edges u j0).weight +
          walkCost g ((g.edges u j0).«to».toNat) (rest ++ [j]) from rfl]
      rw [h3]
      rw [show walkCost g u (j0 :: rest) =
        (g.edges u j0).weight +
          walkCost g ((g.edges u j0).«to».toNat) rest from rfl]
      rw [show walkEnd g u (j0 :: rest) =
        walkEnd g ((g.edges u j0).«to».toNat) rest from rfl]
      ring

theorem heap_root_min (l : List PQNode) (hp : heapProp l) :
    ∀ i, i < l.length → (pqGet l 0).fScore ≤ (pqGet l i).fScore := by
  intro i
  induction i using Nat.strong_induction_on with
  | _ i ih =>
    intro hi
    cases hi0 : i with
    | zero => exact le_refl _
    | succ m =>
      subst hi0
      have hpar : (m + 1 - 1) / 2 < m + 1 := by omega
      have h1 := ih ((m + 1 - 1) / 2) hpar (by omega)
      exact le_trans h1 (hp (m + 1) (by omega) hi)

theorem pq_pop_none_iff (pq : PriorityQueue) :
    pq_pop pq = none ↔ pq.nodes = [] := by
  cases hn : pq.nodes with
  | nil => simp [pq_pop, hn]
  | cons a l =>
    simp only [pq_pop, hn]
    by_cases h2 : l.isEmpty
    · simp [h2]
    · simp [h2]

/-- The cameFrom chain from node v reaches the start id s in m steps,
passing only through nodes already marked closed. -/
inductive ChainToStart (cf : Nat → Int) (closed : Nat → Bool) (s : Int) :
    Nat → Nat → Prop where
  | base (v : Nat) : ((v : Nat) : Int) = s → ChainToStart cf closed s v 0
  | step (v u : Nat) (m : Nat) : ((v : Nat) : Int) ≠ s →
      cf v = ((u : Nat) : Int) → closed u = true →
      ChainToStart cf closed s u m → ChainToStart cf closed s v (m + 1)

theorem ChainToStart_mono (cf cf2 : Nat → Int) (closed closed2 : Nat → Bool)
    (s : Int) (v m : Nat)
    (h : ChainToStart cf closed s v m)
    (hcf : ∀ u, closed u = true → cf2 u = cf u)
    (hcl : ∀ u, closed u = true → closed2 u = true)
    (hv : closed v = true) :
    ChainToStart cf2 closed2 s v m := by
  revert hv
  induction h with
  | base v hv2 => exact fun _ => .base v hv2
  | step v u m hvs hcf1 hcl1 hch ih =>
    intro hv
    exact .step v u m hvs (by rw [hcf v hv]; exact hcf1) (hcl u hcl1) (ih hcl1)

theorem walk_back_of_chain (cf : Nat → Int) (closed : Nat → Bool)
    (s : Int) (N : Nat) (v m : Nat)
    (h : ChainToStart cf closed s v m) :
    ∀ len, len + m ≤ N →
      walk_back cf s N ((v : Nat) : Int) len = (s, len + m) := by
  induction h with
  | base v hv =>
    intro len hlen
    rw [walk_back]
    rw [if_neg (by simp [hv])]
    rw [hv]
    simp
  | step v u m hvs hcf1 hcl1 hch ih =>
    intro len hlen
    rw [walk_back]
    rw [if_pos ⟨hvs, by omega, by omega⟩]
    rw [Int.toNat_natCast, hcf1]
    have h2 := ih (len + 1) (by omega)
    rw [h2]
    congr 1
    omega

/-- A nodup list of naturals all below N has at most N elements. -/
theorem nodupNatList_length_le (N : Nat) (l : List Nat) (hn : l.Nodup)
    (hr : ∀ x ∈ l, x < N) : l.length ≤ N := by
  classical
  have hsub : l.toFinset ⊆ Finset.range N := by
    intro x hx
    rw [List.mem_toFinset] at hx
    exact Finset.mem_range.mpr (hr x hx)
  have hcard := Finset.card_le_card hsub
  rw [List.toFinset_card_of_nodup hn, Finset.card_range] at hcard
  exact hcard

/-- The extra loop invariant of astar_find_path needed for the optimality
claim (zero heuristic): every finite gScore is witnessed by a walk of
exactly that cost, closed nodes carry optimal scores, discovered nodes
are in the open or closed set, the start keeps score 0, and cameFrom
chains of discovered nodes lead back to the start through closed nodes,
with length bounded by the closed count (recorded in closedList). -/
structure DInv (sqrtf : ℚ → ℚ) (g : Graph) (cfg : AStarConfig)
    (s t : Int) (st : AStarState) : Prop where
  base : AStarInv sqrtf g cfg t st
  gReach : ∀ v < g.nodeCount.toNat, ∀ c : ℚ, st.gScore v = (c : WithTop ℚ) →
    ∃ js, validWalk g s.toNat js ∧ walkEnd g s.toNat js = v ∧
      walkCost g s.toNat js = c
  gOpenFin : ∀ v < g.nodeCount.toNat, st.inOpenSet v = true →
    st.gScore v ≠ ⊤
  closedFin : ∀ v < g.nodeCount.toNat, st.inClosedSet v = true →
    st.gScore v ≠ ⊤
  closedOpt : ∀ v < g.nodeCount.toNat, st.inClosedSet v = true →
    ∀ js, validWalk g s.toNat js → walkEnd g s.toNat js = v →
      st.gScore v ≤ ((walkCost g s.toNat js : ℚ) : WithTop ℚ)
  frontier : ∀ v < g.nodeCount.toNat, st.gScore v ≠ ⊤ →
    (st.inOpenSet v = true ∨ st.inClosedSet v = true)
  gs0 : st.gScore s.toNat = ((0 : ℚ) : WithTop ℚ)
  camDisc : ∀ v < g.nodeCount.toNat, st.gScore v ≠ ⊤ → ((v : Nat) : Int) ≠ s →
    ∃ u, u < g.nodeCount.toNat ∧ st.cameFrom v = ((u : Nat) : Int) ∧
      st.inClosedSet u = true
  closedChar : ∀ v : Nat, v ∈ st.closedList ↔
    (v < g.nodeCount.toNat ∧ st.inClosedSet v = true)
  closedNodup : st.closedList.Nodup
  reach : ∀ v < g.nodeCount.toNat, st.inClosedSet v = true →
    ∃ m, m + 1 ≤ st.closedList.length ∧
      ChainToStart st.cameFrom st.inClosedSet s v m

/-- All stored out-edges of closed nodes to active targets are relaxed. -/
def relaxedAll (g : Graph) (st : AStarState) : Prop :=
  ∀ u < g.nodeCount.toNat, st.inClosedSet u = true →
    ∀ j < (g.edgeCounts u).toNat, (g.edges u j).active = true →
      (g.nodes ((g.edges u j).«to».toNat)).active = true →
      st.gScore ((g.edges u j).«to».toNat) ≤
        st.gScore u + ((g.edges u j).weight : WithTop ℚ)

/-- Frame facts of one neighbor relaxation: the closed flags, the closed
list, the statistics history and the scores/predecessors of closed nodes
are untouched, and no gScore ever increases. -/
theorem astar_relax_frame (sqrtf : ℚ → ℚ) (g : Graph) (cfg : AStarConfig)
    (goalId currentId : Int) (st : AStarState) (i : Nat) :
    (astar_relax sqrtf g cfg goalId currentId st i).inClosedSet =
      st.inClosedSet ∧
    (astar_relax sqrtf g cfg goalId currentId st i).closedList =
      st.closedList ∧
    (∀ v, (astar_relax sqrtf g cfg goalId currentId st i).gScore v ≤
      st.gScore v) ∧
    (∀ v, st.inClosedSet v = true →
      (astar_relax sqrtf g cfg goalId currentId st i).gScore v = st.gScore v ∧
      (astar_relax sqrtf g cfg goalId currentId st i).cameFrom v =
        st.cameFrom v) := by
  simp only [astar_relax]
  by_cases hact : (g.edges currentId.toNat i).active = false
  · rw [if_pos hact]
    exact ⟨rfl, rfl, fun v => le_refl _, fun v _ => ⟨rfl, rfl⟩⟩
  · rw [if_neg hact]
    set x := (g.edges currentId.toNat i).«to».toNat with hx
    by_cases hna : (g.nodes x).active = false
    · rw [if_pos hna]
      exact ⟨rfl, rfl, fun v => le_refl _, fun v _ => ⟨rfl, rfl⟩⟩
    · rw [if_neg hna]
      by_cases hclosed : st.inClosedSet x
      · rw [if_pos hclosed]
        exact ⟨rfl, rfl, fun v => le_refl _, fun v _ => ⟨rfl, rfl⟩⟩
      · rw [if_neg hclosed]
        by_cases htent : st.gScore currentId.toNat +
            ((g.edges currentId.toNat i).weight : WithTop ℚ) < st.gScore x
        · rw [if_pos htent]
          have hg : ∀ v, Function.update st.gScore x
              (st.gScore currentId.toNat +
                ((g.edges currentId.toNat i).weight : WithTop ℚ)) v ≤
              st.gScore v := by
            intro v
            rw [Function.update_apply]
            by_cases hvx : v = x
            · rw [if_pos hvx, hvx]
              exact le_of_lt htent
            · rw [if_neg hvx]
          have hcl : ∀ v, st.inClosedSet v = true →
              Function.update st.gScore x
                (st.gScore currentId.toNat +
                  ((g.edges currentId.toNat i).weight : WithTop ℚ)) v =
                st.gScore v ∧
              Function.update st.cameFrom x currentId v = st.cameFrom v := by
            intro v hv
            have hvx : v ≠ x := by
              intro h2
              subst h2
              exact hclosed hv
            rw [Function.update_apply, if_neg hvx,
              Function.update_apply, if_neg hvx]
            exact ⟨rfl, rfl⟩
          by_cases hopen : st.inOpenSet x = false
          · rw [if_pos hopen]
            exact ⟨rfl, rfl, hg, hcl⟩
          · rw [if_neg hopen]
            exact ⟨rfl, rfl, hg, hcl⟩
        · rw [if_neg htent]
          exact ⟨rfl, rfl, fun v => le_refl _, fun v _ => ⟨rfl, rfl⟩⟩

theorem astar_relax_dinv (sqrtf : ℚ → ℚ) (g : Graph) (cfg : AStarConfig)
    (s t : Int) (cv : Nat) (st : AStarState) (i : Nat)
    (hwf : edgesInRange g) (hw : weightsNonneg g)
    (hcvN : cv < g.nodeCount.toNat) (hi : i < (g.edgeCounts cv).toNat)
    (hcvC : st.inClosedSet cv = true)
    (dinv : DInv sqrtf g cfg s t st) :
    DInv sqrtf g cfg s t
      (astar_relax sqrtf g cfg t ((cv : Nat) : Int) st i) := by
  have hbase := astar_relax_inv sqrtf g cfg t cv st i hwf hcvN hi dinv.base
  simp only [astar_relax, Int.toNat_natCast] at hbase ⊢
  by_cases hact : (g.edges cv i).active = false
  · rw [if_pos hact]
    rw [if_pos hact] at hbase
    exact dinv
  · rw [if_neg hact]
    rw [if_neg hact] at hbase
    have hact2 : (g.edges cv i).active = true := by
      cases h2 : (g.edges cv i).active
      · exact absurd h2 hact
      · rfl
    set nb := (g.edges cv i).«to» with hnb
    obtain ⟨hnb0, hnb1⟩ := hwf cv i hcvN hi
    set x := nb.toNat with hx
    have hxN : x < g.nodeCount.toNat := by omega
    by_cases hna : (g.nodes x).active = false
    · rw [if_pos hna]
      rw [if_pos hna] at hbase
      exact dinv
    · rw [if_neg hna]
      rw [if_neg hna] at hbase
      have hna2 : (g.nodes x).active = true := by
        cases h2 : (g.nodes x).active
        · exact absurd h2 hna
        · rfl
      by_cases hclosed : st.inClosedSet x
      · rw [if_pos hclosed]
        rw [if_pos hclosed] at hbase
        exact dinv
      · rw [if_neg hclosed]
        rw [if_neg hclosed] at hbase
        by_cases htent : st.gScore cv + ((g.edges cv i).weight : WithTop ℚ) <
            st.gScore x
        · rw [if_pos htent]
          rw [if_pos htent] at hbase
          have hgcv : st.gScore cv ≠ ⊤ := dinv.closedFin cv hcvN hcvC
          obtain ⟨cp, hcp⟩ : ∃ cp : ℚ, st.gScore cv = (cp : WithTop ℚ) := by
            cases h2 : st.gScore cv with
            | top => exact absurd h2 hgcv
            | coe a => exact ⟨a, rfl⟩
          obtain ⟨js, hjs, hend, hcost⟩ := dinv.gReach cv hcvN cp hcp
          have hext := validWalk_append_one g js s.toNat i
            hjs (by rw [hend]; exact hi) (by rw [hend]; exact hact2)
            (by rw [hend]; exact hxN) (by rw [hend]; exact hna2)
          rw [hend] at hext
          obtain ⟨hW, hWend, hWcost⟩ := hext
          rw [hcost] at hWcost
          have htentc : st.gScore cv + ((g.edges cv i).weight : WithTop ℚ) =
              ((cp + (g.edges cv i).weight : ℚ) : WithTop ℚ) := by
            rw [hcp]
            exact (WithTop.coe_add _ _).symm
          have hcp0 : 0 ≤ cp := by
            rw [← hcost]
            exact walkCost_nonneg g hw js s.toNat hjs
          have hw0 : 0 ≤ (g.edges cv i).weight := hw cv i hcvN hi
          have hsvne : s.toNat ≠ x := by
            intro h2
            rw [htentc, ← h2, dinv.gs0] at htent
            rw [WithTop.coe_lt_coe] at htent
            linarith
          have hGr : ∀ v < g.nodeCount.toNat, ∀ c : ℚ,
              Function.update st.gScore x
                (st.gScore cv + ((g.edges cv i).weight : WithTop ℚ)) v =
                (c : WithTop ℚ) →
              ∃ js2, validWalk g s.toNat js2 ∧ walkEnd g s.toNat js2 = v ∧
                walkCost g s.toNat js2 = c := by
            intro v hv c hc
            rw [Function.update_apply] at hc
            by_cases hvx : v = x
            · rw [if_pos hvx] at hc
              rw [htentc, WithTop.coe_inj] at hc
              subst hvx
              exact ⟨js ++ [i], hW, hWend, by rw [hWcost, hc]⟩
            · rw [if_neg hvx] at hc
              exact dinv.gReach v hv c hc
          have hFin : Function.update st.gScore x
              (st.gScore cv + ((g.edges cv i).weight : WithTop ℚ)) x ≠ ⊤ := by
            rw [Function.update_apply, if_pos rfl, htentc]
            exact WithTop.coe_ne_top
          have hGfix : ∀ v, v ≠ x →
              Function.update st.gScore x
                (st.gScore cv + ((g.edges cv i).weight : WithTop ℚ)) v =
                st.gScore v := by
            intro v hvx
            rw [Function.update_apply, if_neg hvx]
          have hCfix : ∀ v, v ≠ x →
              Function.update st.cameFrom x ((cv : Nat) : Int) v =
                st.cameFrom v := by
            intro v hvx
            rw [Function.update_apply, if_neg hvx]
          have hCD : ∀ v < g.nodeCount.toNat,
              Function.update st.gScore x
                (st.gScore cv + ((g.edges cv i).weight : WithTop ℚ)) v ≠ ⊤ →
              ((v : Nat) : Int) ≠ s →
              ∃ u, u < g.nodeCount.toNat ∧
                Function.update st.cameFrom x ((cv : Nat) : Int) v =
                  ((u : Nat) : Int) ∧ st.inClosedSet u = true := by
            intro v hv hfin hvs
            by_cases hvx : v = x
            · subst hvx
              exact ⟨cv, hcvN, by rw [Function.update_apply, if_pos rfl], hcvC⟩
            · rw [hGfix v hvx] at hfin
              obtain ⟨u, hu1, hu2, hu3⟩ := dinv.camDisc v hv hfin hvs
              exact ⟨u, hu1, by rw [hCfix v hvx]; exact hu2, hu3⟩
          have hRe : ∀ v < g.nodeCount.toNat, st.inClosedSet v = true →
              ∃ m, m + 1 ≤ st.closedList.length ∧
                ChainToStart (Function.update st.cameFrom x ((cv : Nat) : Int))
                  st.inClosedSet s v m := by
            intro v hv hc
            obtain ⟨m, hm1, hm2⟩ := dinv.reach v hv hc
            refine ⟨m, hm1, ?_⟩
            apply ChainToStart_mono st.cameFrom _ st.inClosedSet _ s v m hm2
            · intro u hu
              apply hCfix
              intro h2
              subst h2
              exact hclosed hu
            · exact fun u hu => hu
            · exact hc
          by_cases hopen : st.inOpenSet x = false
          · rw [if_pos hopen]
            rw [if_pos hopen] at hbase
            refine ⟨hbase, hGr, ?_, ?_, ?_, ?_, ?_, hCD, ?_, ?_, hRe⟩
            · intro v hv hvo
              dsimp only at hvo ⊢
              by_cases hvx : v = x
              · subst hvx
                exact hFin
              · rw [Function.update_apply, if_neg hvx] at hvo
                rw [hGfix v hvx]
                exact dinv.gOpenFin v hv hvo
            · intro v hv hvc
              dsimp only at hvc ⊢
              have hvx : v ≠ x := by
                intro h2; subst h2; exact hclosed hvc
              rw [hGfix v hvx]
              exact dinv.closedFin v hv hvc
            · intro v hv hvc js2 hjs2 hend2
              dsimp only at hvc ⊢
              have hvx : v ≠ x := by
                intro h2; subst h2; exact hclosed hvc
              rw [hGfix v hvx]
              exact dinv.closedOpt v hv hvc js2 hjs2 hend2
            · intro v hv hfin
              dsimp only at hfin ⊢
              by_cases hvx : v = x
              · subst hvx
                rw [Function.update_apply, if_pos rfl]
                exact Or.inl rfl
              · rw [hGfix v hvx] at hfin
                rw [Function.update_apply, if_neg hvx]
                rcases dinv.frontier v hv hfin with h2 | h2
                · exact Or.inl h2
                · exact Or.inr h2
            · dsimp only
              rw [hGfix s.toNat hsvne]
              exact dinv.gs0
            · exact dinv.closedChar
            · exact dinv.closedNodup
          · rw [if_neg hopen]
            rw [if_neg hopen] at hbase
            refine ⟨hbase, hGr, ?_, ?_, ?_, ?_, ?_, hCD, ?_, ?_, hRe⟩
            · intro v hv hvo
              dsimp only at hvo ⊢
              by_cases hvx : v = x
              · subst hvx
                exact hFin
              · rw [hGfix v hvx]
                exact dinv.gOpenFin v hv hvo
            · intro v hv hvc
              dsimp only at hvc ⊢
              have hvx : v ≠ x := by
                intro h2; subst h2; exact hclosed hvc
              rw [hGfix v hvx]
              exact dinv.closedFin v hv hvc
            · intro v hv hvc js2 hjs2 hend2
              dsimp only at hvc ⊢
              have hvx : v ≠ x := by
                intro h2; subst h2; exact hclosed hvc
              rw [hGfix v hvx]
              exact dinv.closedOpt v hv hvc js2 hjs2 hend2
            · intro v hv hfin
              dsimp only at hfin ⊢
              by_cases hvx : v = x
              · subst hvx
                refine Or.inl ?_
                cases h2 : st.inOpenSet x
                · exact absurd h2 hopen
                · rfl
              · rw [hGfix v hvx] at hfin
                exact dinv.frontier v hv hfin
            · dsimp only
              rw [hGfix s.toNat hsvne]
              exact dinv.gs0
            · exact dinv.closedChar
            · exact dinv.closedNodup
        · rw [if_neg htent]
          rw [if_neg htent] at hbase
          exact dinv

theorem astar_relax_foldl_frame (sqrtf : ℚ → ℚ) (g : Graph)
    (cfg : AStarConfig) (goalId currentId : Int) (n : Nat) (st : AStarState) :
    ((List.range n).foldl
      (astar_relax sqrtf g cfg goalId currentId) st).inClosedSet =
      st.inClosedSet ∧
    ((List.range n).foldl
      (astar_relax sqrtf g cfg goalId currentId) st).closedList =
      st.closedList ∧
    (∀ v, ((List.range n).foldl
      (astar_relax sqrtf g cfg goalId currentId) st).gScore v ≤
      st.gScore v) ∧
    (∀ v, st.inClosedSet v = true →
      ((List.range n).foldl
        (astar_relax sqrtf g cfg goalId currentId) st).gScore v =
        st.gScore v ∧
      ((List.range n).foldl
        (astar_relax sqrtf g cfg goalId currentId) st).cameFrom v =
        st.cameFrom v) := by
  induction n generalizing st with
  | zero => exact ⟨rfl, rfl, fun v => le_refl _, fun v _ => ⟨rfl, rfl⟩⟩
  | succ m ih =>
    rw [List.range_succ, List.foldl_append]
    simp only [List.foldl_cons, List.foldl_nil]
    obtain ⟨ih1, ih2, ih3, ih4⟩ := ih st
    obtain ⟨f1, f2, f3, f4⟩ := astar_relax_frame sqrtf g cfg goalId currentId
      ((List.range m).foldl (astar_relax sqrtf g cfg goalId currentId) st) m
    refine ⟨by rw [f1, ih1], by rw [f2, ih2], ?_, ?_⟩
    · intro v
      exact le_trans (f3 v) (ih3 v)
    · intro v hv
      have hv2 : ((List.range m).foldl
          (astar_relax sqrtf g cfg goalId currentId) st).inClosedSet v =
          true := by
        rw [ih1]; exact hv
      obtain ⟨g1, g2⟩ := f4 v hv2
      obtain ⟨g3, g4⟩ := ih4 v hv
      exact ⟨by rw [g1, g3], by rw [g2, g4]⟩

theorem astar_relax_foldl_dinv (sqrtf : ℚ → ℚ) (g : Graph) (cfg : AStarConfig)
    (s t : Int) (cv : Nat) (n : Nat) (st : AStarState)
    (hwf : edgesInRange g) (hw : weightsNonneg g)
    (hcvN : cv < g.nodeCount.toNat) (hn : n ≤ (g.edgeCounts cv).toNat)
    (hcvC : st.inClosedSet cv = true)
    (dinv : DInv sqrtf g cfg s t st) :
    DInv sqrtf g cfg s t
      ((List.range n).foldl
        (astar_relax sqrtf g cfg t ((cv : Nat) : Int)) st) := by
  induction n generalizing st with
  | zero => simpa using dinv
  | succ m ih =>
    rw [List.range_succ, List.foldl_append]
    have hcvC2 : ((List.range m).foldl
        (astar_relax sqrtf g cfg t ((cv : Nat) : Int)) st).inClosedSet cv =
        true := by
      rw [(astar_relax_foldl_frame sqrtf g cfg t ((cv : Nat) : Int) m st).1]
      exact hcvC
    exact astar_relax_dinv sqrtf g cfg s t cv _ m hwf hw hcvN (by omega)
      hcvC2 (ih st (by omega) hcvC dinv)

theorem astar_relax_row (sqrtf : ℚ → ℚ) (g : Graph) (cfg : AStarConfig)
    (s t : Int) (cv : Nat) (st : AStarState) (i : Nat)
    (hwf : edgesInRange g) (hw : weightsNonneg g)
    (hcvN : cv < g.nodeCount.toNat) (hi : i < (g.edgeCounts cv).toNat)
    (hcvC : st.inClosedSet cv = true)
    (dinv : DInv sqrtf g cfg s t st)
    (hact : (g.edges cv i).active = true)
    (htga : (g.nodes ((g.edges cv i).«to».toNat)).active = true) :
    (astar_relax sqrtf g cfg t ((cv : Nat) : Int) st i).gScore
        ((g.edges cv i).«to».toNat) ≤
      (astar_relax sqrtf g cfg t ((cv : Nat) : Int) st i).gScore cv +
        ((g.edges cv i).weight : WithTop ℚ) := by
  have hgcvfix : ∀ v, st.inClosedSet v = true →
      (astar_relax sqrtf g cfg t ((cv : Nat) : Int) st i).gScore v =
        st.gScore v :=
    fun v hv => ((astar_relax_frame sqrtf g cfg t _ st i).2.2.2 v hv).1
  rw [hgcvfix cv hcvC]
  simp only [astar_relax, Int.toNat_natCast]
  rw [if_neg (by simp [hact])]
  set x := (g.edges cv i).«to».toNat with hx
  rw [if_neg (by simp [htga])]
  obtain ⟨hnb0, hnb1⟩ := hwf cv i hcvN hi
  have hxN : x < g.nodeCount.toNat := by omega
  by_cases hclosed : st.inClosedSet x
  · rw [if_pos hclosed]
    have hgcv : st.gScore cv ≠ ⊤ := dinv.closedFin cv hcvN hcvC
    obtain ⟨cp, hcp⟩ : ∃ cp : ℚ, st.gScore cv = (cp : WithTop ℚ) := by
      cases h2 : st.gScore cv with
      | top => exact absurd h2 hgcv
      | coe a => exact ⟨a, rfl⟩
    obtain ⟨js, hjs, hend, hcost⟩ := dinv.gReach cv hcvN cp hcp
    have hext := validWalk_append_one g js s.toNat i
      hjs (by rw [hend]; exact hi) (by rw [hend]; exact hact)
      (by rw [hend]; exact hxN) (by rw [hend]; exact htga)
    rw [hend] at hext
    obtain ⟨hW, hWend, hWcost⟩ := hext
    have h2 := dinv.closedOpt x hxN hclosed (js ++ [i]) hW hWend
    rw [hWcost, hcost] at h2
    rw [hcp, ← WithTop.coe_add]
    exact h2
  · rw [if_neg hclosed]
    by_cases htent : st.gScore cv + ((g.edges cv i).weight : WithTop ℚ) <
        st.gScore x
    · rw [if_pos htent]
      by_cases hopen : st.inOpenSet x = false
      · rw [if_pos hopen]
        dsimp only
        rw [Function.update_apply, if_pos rfl]
      · rw [if_neg hopen]
        dsimp only
        rw [Function.update_apply, if_pos rfl]
    · rw [if_neg htent]
      exact not_lt.mp htent

theorem astar_relax_foldl_row (sqrtf : ℚ → ℚ) (g : Graph) (cfg : AStarConfig)
    (s t : Int) (cv : Nat) (n : Nat) (st : AStarState)
    (hwf : edgesInRange g) (hw : weightsNonneg g)
    (hcvN : cv < g.nodeCount.toNat) (hn : n ≤ (g.edgeCounts cv).toNat)
    (hcvC : st.inClosedSet cv = true)
    (dinv : DInv sqrtf g cfg s t st) :
    ∀ j < n, (g.edges cv j).active = true →
      (g.nodes ((g.edges cv j).«to».toNat)).active = true →
      ((List.range n).foldl
          (astar_relax sqrtf g cfg t ((cv : Nat) : Int)) st).gScore
          ((g.edges cv j).«to».toNat) ≤
        ((List.range n).foldl
          (astar_relax sqrtf g cfg t ((cv : Nat) : Int)) st).gScore cv +
          ((g.edges cv j).weight : WithTop ℚ) := by
  induction n generalizing st with
  | zero => intro j hj; omega
  | succ m ih =>
    intro j hj hja htga
    rw [List.range_succ, List.foldl_append]
    simp only [List.foldl_cons, List.foldl_nil]
    have hCm : ((List.range m).foldl
        (astar_relax sqrtf g cfg t ((cv : Nat) : Int)) st).inClosedSet cv =
        true := by
      rw [(astar_relax_foldl_frame sqrtf g cfg t ((cv : Nat) : Int) m st).1]
      exact hcvC
    have hDm := astar_relax_foldl_dinv sqrtf g cfg s t cv m st hwf hw hcvN
      (by omega) hcvC dinv
    by_cases hjm : j = m
    · subst hjm
      exact astar_relax_row sqrtf g cfg s t cv _ j hwf hw hcvN (by omega)
        hCm hDm hja htga
    · have hij := ih st (by omega) hcvC dinv j (by omega) hja htga
      obtain ⟨-, -, f3, f4⟩ := astar_relax_frame sqrtf g cfg t
        ((cv : Nat) : Int) ((List.range m).foldl
          (astar_relax sqrtf g cfg t ((cv : Nat) : Int)) st) m
      have h2 := (f4 cv hCm).1
      rw [h2]
      exact le_trans (f3 _) hij

theorem dij_walk_lb (sqrtf : ℚ → ℚ) (g : Graph) (cfg : AStarConfig)
    (s t : Int) (st : AStarState)
    (hwf : edgesInRange g) (hw : weightsNonneg g)
    (dinv : DInv sqrtf g cfg s t st) (rall : relaxedAll g st)
    (B : WithTop ℚ)
    (hB : ∀ v < g.nodeCount.toNat, st.inOpenSet v = true → B ≤ st.gScore v) :
    ∀ js (u : Nat) (c : ℚ), validWalk g u js → st.inClosedSet u = true →
      st.gScore u ≤ (c : WithTop ℚ) →
      B ≤ ((c + walkCost g u js : ℚ) : WithTop ℚ) ∨
      (st.inClosedSet (walkEnd g u js) = true ∧
        st.gScore (walkEnd g u js) ≤
          ((c + walkCost g u js : ℚ) : WithTop ℚ)) := by
  intro js
  induction js with
  | nil =>
    intro u c hv hc hg
    right
    refine ⟨hc, ?_⟩
    simpa [walkCost, walkEnd] using hg
  | cons j rest ih =>
    intro u c hv hc hg
    obtain ⟨hu, hua, hj, hja, hrest⟩ := hv
    set x := (g.edges u j).«to».toNat with hx
    obtain ⟨hnb0, hnb1⟩ := hwf u j hu hj
    have hxN : x < g.nodeCount.toNat := by omega
    have hxact : (g.nodes x).active = true := by
      cases rest with
      | nil => exact hrest.2
      | cons a l => exact hrest.2.1
    have hrel := rall u hu hc j hj hja hxact
    have hgx : st.gScore x ≤
        ((c + (g.edges u j).weight : ℚ) : WithTop ℚ) := by
      rw [WithTop.coe_add]
      calc st.gScore x ≤ st.gScore u + ((g.edges u j).weight : WithTop ℚ) :=
            hrel
        _ ≤ (c : WithTop ℚ) + ((g.edges u j).weight : WithTop ℚ) := by
            exact add_le_add_right hg _
    have hcost_eq : walkCost g u (j :: rest) =
        (g.edges u j).weight + walkCost g x rest := rfl
    have hend_eq : walkEnd g u (j :: rest) = walkEnd g x rest := rfl
    by_cases hxc : st.inClosedSet x = true
    · have h2 := ih x (c + (g.edges u j).weight) hrest hxc hgx
      rw [hend_eq, hcost_eq]
      have harith : c + (g.edges u j).weight + walkCost g x rest =
          c + ((g.edges u j).weight + walkCost g x rest) := by ring
      rw [← harith]
      exact h2
    · left
      have hfin : st.gScore x ≠ ⊤ := by
        intro h2
        rw [h2] at hgx
        exact absurd hgx (by simp)
      have hopen : st.inOpenSet x = true := by
        rcases dinv.frontier x hxN hfin with h2 | h2
        · exact h2
        · exact absurd h2 hxc
      have h3 := hB x hxN hopen
      have h4 : 0 ≤ walkCost g x rest := walkCost_nonneg g hw rest x hrest
      rw [hcost_eq]
      calc B ≤ st.gScore x := h3
        _ ≤ ((c + (g.edges u j).weight : ℚ) : WithTop ℚ) := hgx
        _ ≤ ((c + ((g.edges u j).weight + walkCost g x rest) : ℚ) :
              WithTop ℚ) := by
            rw [WithTop.coe_le_coe]
            linarith

theorem pop_opt (sqrtf : ℚ → ℚ) (g : Graph) (cfg : AStarConfig)
    (s t : Int) (st : AStarState)
    (hwf : edgesInRange g) (hw : weightsNonneg g)
    (dinv : DInv sqrtf g cfg s t st) (rall : relaxedAll g st)
    (p : Nat) (hpN : p < g.nodeCount.toNat)
    (hpnc : st.inClosedSet p = false)
    (hB : ∀ v < g.nodeCount.toNat, st.inOpenSet v = true →
      st.gScore p ≤ st.gScore v) :
    ∀ js, validWalk g s.toNat js → walkEnd g s.toNat js = p →
      st.gScore p ≤ ((walkCost g s.toNat js : ℚ) : WithTop ℚ) := by
  intro js hjs hend
  by_cases hsc : st.inClosedSet s.toNat = true
  · have h2 := dij_walk_lb sqrtf g cfg s t st hwf hw dinv rall
      (st.gScore p) hB js s.toNat 0 hjs hsc (le_of_eq dinv.gs0)
    rcases h2 with h2 | ⟨h3, -⟩
    · simpa using h2
    · rw [hend] at h3
      rw [h3] at hpnc
      cases hpnc
  · have hsN : s.toNat < g.nodeCount.toNat := by
      cases js with
      | nil => exact hjs.1
      | cons a l => exact hjs.1
    have hsopen : st.inOpenSet s.toNat = true := by
      rcases dinv.frontier s.toNat hsN (by rw [dinv.gs0]; exact
        WithTop.coe_ne_top) with h2 | h2
      · exact h2
      · exact absurd h2 hsc
    have h3 := hB s.toNat hsN hsopen
    rw [dinv.gs0] at h3
    have h4 : 0 ≤ walkCost g s.toNat js := walkCost_nonneg g hw js s.toNat hjs
    calc st.gScore p ≤ ((0 : ℚ) : WithTop ℚ) := h3
      _ ≤ ((walkCost g s.toNat js : ℚ) : WithTop ℚ) := by
          rw [WithTop.coe_le_coe]; exact h4

theorem exists_open_on_walk (sqrtf : ℚ → ℚ) (g : Graph) (cfg : AStarConfig)
    (s t : Int) (st : AStarState)
    (hwf : edgesInRange g)
    (dinv : DInv sqrtf g cfg s t st) (rall : relaxedAll g st) :
    ∀ js (u : Nat), validWalk g u js → st.inClosedSet u = true →
      st.inClosedSet (walkEnd g u js) = false →
      ∃ v, v < g.nodeCount.toNat ∧ st.inOpenSet v = true := by
  intro js
  induction js with
  | nil =>
    intro u hv hc hnc
    rw [show walkEnd g u [] = u from rfl] at hnc
    rw [hc] at hnc
    cases hnc
  | cons j rest ih =>
    intro u hv hc hnc
    obtain ⟨hu, hua, hj, hja, hrest⟩ := hv
    set x := (g.edges u j).«to».toNat with hx
    obtain ⟨hnb0, hnb1⟩ := hwf u j hu hj
    have hxN : x < g.nodeCount.toNat := by omega
    have hxact : (g.nodes x).active = true := by
      cases rest with
      | nil => exact hrest.2
      | cons a l => exact hrest.2.1
    by_cases hxc : st.inClosedSet x = true
    · exact ih x hrest hxc hnc
    · have hfin : st.gScore x ≠ ⊤ := by
        have hrel := rall u hu hc j hj hja hxact
        intro h2
        rw [h2] at hrel
        have h3 : st.gScore u ≠ ⊤ := dinv.closedFin u hu hc
        cases h4 : st.gScore u with
        | top => exact h3 h4
        | coe a =>
          rw [h4] at hrel
          rw [← WithTop.coe_add] at hrel
          exact absurd (le_antisymm le_top hrel) WithTop.coe_ne_top
      rcases dinv.frontier x hxN hfin with h2 | h2
      · exact ⟨x, hxN, h2⟩
      · exact absurd h2 hxc

theorem reconstruct_path_of_walk_back (cf : Nat → Int)
    (gS : Nat → WithTop ℚ) (s t : Int) (N : Nat) (m : Nat)
    (hwb : walk_back cf s N t 0 = (s, m)) :
    reconstruct_path cf gS s t N =
      { nodes := chain_list cf (m + 1) t, length := ((m + 1 : Nat) : Int),
        totalCost := gS t.toNat, found := true } := by
  unfold reconstruct_path
  rw [hwb]
  simp

/-- With the zero heuristic the root of the open-set heap carries a
minimal gScore among all open nodes. -/
theorem root_min_g (sqrtf : ℚ → ℚ) (g : Graph) (cfg : AStarConfig)
    (goalId : Int) (st : AStarState)
    (hz : cfg.heuristic = HeuristicType.zero)
    (inv : AStarInv sqrtf g cfg goalId st)
    (cv : Nat) (hcvN : cv < g.nodeCount.toNat)
    (hroot : (pqGet st.openSet.nodes 0).nodeId = ((cv : Nat) : Int))
    (htlen : 0 < st.openSet.nodes.length) :
    ∀ v < g.nodeCount.toNat, st.inOpenSet v = true →
      st.gScore cv ≤ st.gScore v := by
  have hf : ∀ v < g.nodeCount.toNat, st.inOpenSet v = true →
      st.fScore v = st.gScore v := by
    intro v hv hvo
    rw [inv.fgSync v hv hvo, hz]
    simp [astar_heuristic]
  have hcvo : st.inOpenSet cv = true := by
    apply (inv.openSync cv hcvN).mpr
    rw [← hroot]
    exact List.mem_map_of_mem _ (pqGet_mem _ _ htlen)
  intro v hv hvo
  rw [← hf cv hcvN hcvo, ← hf v hv hvo]
  obtain ⟨e, hemem, heid⟩ := List.mem_map.mp ((inv.openSync v hv).mp hvo)
  obtain ⟨i2, hi2, hie⟩ := List.mem_iff_getElem.mp hemem
  have h2 := heap_root_min st.openSet.nodes inv.heap i2 hi2
  rw [pqGet_eq_getElem _ _ hi2, hie] at h2
  have h3 : (pqGet st.openSet.nodes 0).fScore = st.fScore cv := by
    rw [inv.keySync _ (pqGet_mem _ _ htlen), hroot, Int.toNat_natCast]
  have h4 : e.fScore = st.fScore v := by
    rw [inv.keySync e hemem, heid, Int.toNat_natCast]
  rw [h3, h4] at h2
  exact h2

theorem astar_close_state_dinv (sqrtf : ℚ → ℚ) (g : Graph)
    (cfg : AStarConfig) (s t : Int) (st : AStarState) (f0 : WithTop ℚ)
    (os1 : PriorityQueue) (cv : Nat)
    (hwf : edgesInRange g) (hw : weightsNonneg g)
    (hz : cfg.heuristic = HeuristicType.zero)
    (hcvN : cv < g.nodeCount.toNat)
    (hpop : pq_pop st.openSet = some (((cv : Nat) : Int), f0, os1))
    (dinv : DInv sqrtf g cfg s t st) (rall : relaxedAll g st) :
    DInv sqrtf g cfg s t
      { st with
          openSet := os1
          inOpenSet := Function.update st.inOpenSet cv false
          nodesExplored := st.nodesExplored + 1
          inClosedSet := Function.update st.inClosedSet cv true
          closedList := st.closedList ++ [cv] } := by
  obtain ⟨hne, hroot, hperm, hcap⟩ := pq_pop_spec st.openSet _ f0 os1 hpop
  have htlen : 0 < st.openSet.nodes.length := List.length_pos.mpr hne
  have hrootid : (pqGet st.openSet.nodes 0).nodeId = ((cv : Nat) : Int) := by
    rw [hroot]
  have hcmem : ((cv : Nat) : Int) ∈ heapIds st := by
    rw [← hrootid]
    exact List.mem_map_of_mem _ (pqGet_mem _ _ htlen)
  have hopenc : st.inOpenSet cv = true :=
    (dinv.base.openSync cv hcvN).mpr hcmem
  have hclosedc : st.inClosedSet cv = false := by
    cases h2 : st.inClosedSet cv
    · rfl
    · exact absurd ⟨hopenc, h2⟩ (dinv.base.disj cv)
  have hfin : st.gScore cv ≠ ⊤ := dinv.gOpenFin cv hcvN hopenc
  have hBall := root_min_g sqrtf g cfg t st hz dinv.base cv hcvN hrootid htlen
  have hOpt := pop_opt sqrtf g cfg s t st hwf hw dinv rall cv hcvN hclosedc
    hBall
  have hclmono : ∀ u, st.inClosedSet u = true →
      Function.update st.inClosedSet cv true u = true := by
    intro u hu
    rw [Function.update_apply]
    by_cases h2 : u = cv
    · rw [if_pos h2]
    · rw [if_neg h2]; exact hu
  refine ⟨astar_close_state_inv sqrtf g cfg t st f0 os1 cv hcvN hpop dinv.base,
    ?_, ?_, ?_, ?_, ?_, ?_, ?_, ?_, ?_, ?_⟩
  · exact dinv.gReach
  · intro v hv hvo
    dsimp only at hvo ⊢
    rw [Function.update_apply] at hvo
    by_cases hvx : v = cv
    · rw [if_pos hvx] at hvo
      cases hvo
    · rw [if_neg hvx] at hvo
      exact dinv.gOpenFin v hv hvo
  · intro v hv hvc
    dsimp only at hvc ⊢
    rw [Function.update_apply] at hvc
    by_cases hvx : v = cv
    · subst hvx
      exact hfin
    · rw [if_neg hvx] at hvc
      exact dinv.closedFin v hv hvc
  · intro v hv hvc js hjs hend
    dsimp only at hvc ⊢
    rw [Function.update_apply] at hvc
    by_cases hvx : v = cv
    · subst hvx
      exact hOpt js hjs hend
    · rw [if_neg hvx] at hvc
      exact dinv.closedOpt v hv hvc js hjs hend
  · intro v hv hfin2
    dsimp only at hfin2 ⊢
    by_cases hvx : v = cv
    · subst hvx
      right
      rw [Function.update_apply, if_pos rfl]
    · rcases dinv.frontier v hv hfin2 with h2 | h2
      · left
        rw [Function.update_apply, if_neg hvx]
        exact h2
      · right
        exact hclmono v h2
  · exact dinv.gs0
  · intro v hv hfin2 hvs
    dsimp only at hfin2 ⊢
    obtain ⟨u, hu1, hu2, hu3⟩ := dinv.camDisc v hv hfin2 hvs
    exact ⟨u, hu1, hu2, hclmono u hu3⟩
  · intro v
    dsimp only
    rw [List.mem_append, List.mem_singleton, Function.update_apply]
    by_cases hvx : v = cv
    · subst hvx
      rw [if_pos rfl]
      constructor
      · intro _
        exact ⟨hcvN, rfl⟩
      · intro _
        exact Or.inr rfl
    · rw [if_neg hvx]
      rw [dinv.closedChar v]
      constructor
      · rintro (h2 | h2)
        · exact h2
        · exact absurd h2 hvx
      · exact fun h2 => Or.inl h2
  · dsimp only
    rw [List.nodup_append]
    refine ⟨dinv.closedNodup, List.nodup_singleton _, ?_⟩
    intro a ha hb
    rw [List.mem_singleton] at hb
    subst hb
    rw [dinv.closedChar a] at ha
    rw [ha.2] at hclosedc
    cases hclosedc
  · intro v hv hvc
    dsimp only at hvc ⊢
    rw [List.length_append, List.length_singleton]
    rw [Function.update_apply] at hvc
    by_cases hvx : v = cv
    · subst hvx
      by_cases hcs : ((v : Nat) : Int) = s
      · exact ⟨0, by omega, .base v hcs⟩
      · obtain ⟨u, hu1, hu2, hu3⟩ := dinv.camDisc v hv hfin hcs
        obtain ⟨m, hm1, hm2⟩ := dinv.reach u hu1 hu3
        refine ⟨m + 1, by omega, ?_⟩
        exact .step v u m hcs hu2 (hclmono u hu3)
          (ChainToStart_mono st.cameFrom st.cameFrom st.inClosedSet
            (Function.update st.inClosedSet v true) s u m hm2
            (fun _ _ => rfl) hclmono hu3)
    · rw [if_neg hvx] at hvc
      obtain ⟨m, hm1, hm2⟩ := dinv.reach v hv hvc
      refine ⟨m, by omega, ?_⟩
      exact ChainToStart_mono st.cameFrom st.cameFrom st.inClosedSet
        (Function.update st.inClosedSet cv true) s v m hm2
        (fun _ _ => rfl) hclmono hvc

theorem validWalk_start (g : Graph) (u : Nat) (js : List Nat)
    (h : validWalk g u js) :
    u < g.nodeCount.toNat ∧ (g.nodes u).active = true := by
  cases js with
  | nil => exact ⟨h.1, h.2⟩
  | cons a l => exact ⟨h.1, h.2.1⟩

theorem relaxedAll_after_close (sqrtf : ℚ → ℚ) (g : Graph)
    (cfg : AStarConfig) (s t : Int) (st : AStarState) (f0 : WithTop ℚ)
    (os1 : PriorityQueue) (cv : Nat)
    (hwf : edgesInRange g) (hw : weightsNonneg g)
    (hz : cfg.heuristic = HeuristicType.zero)
    (hcvN : cv < g.nodeCount.toNat)
    (hpop : pq_pop st.openSet = some (((cv : Nat) : Int), f0, os1))
    (dinv : DInv sqrtf g cfg s t st) (rall : relaxedAll g st) :
    relaxedAll g ((List.range (g.edgeCounts cv).toNat).foldl
      (astar_relax sqrtf g cfg t ((cv : Nat) : Int))
      { st with
          openSet := os1
          inOpenSet := Function.update st.inOpenSet cv false
          nodesExplored := st.nodesExplored + 1
          inClosedSet := Function.update st.inClosedSet cv true
          closedList := st.closedList ++ [cv] }) := by
  have hdinv2 := astar_close_state_dinv sqrtf g cfg s t st f0 os1 cv
    hwf hw hz hcvN hpop dinv rall
  have hcvC2 : Function.update st.inClosedSet cv true cv = true := by
    rw [Function.update_apply, if_pos rfl]
  set st2 : AStarState :=
    { st with
        openSet := os1
        inOpenSet := Function.update st.inOpenSet cv false
        nodesExplored := st.nodesExplored + 1
        inClosedSet := Function.update st.inClosedSet cv true
        closedList := st.closedList ++ [cv] } with hst2
  obtain ⟨ff1, ff2, ff3, ff4⟩ := astar_relax_foldl_frame sqrtf g cfg t
    ((cv : Nat) : Int) (g.edgeCounts cv).toNat st2
  intro u huN huc j hj hja htga
  rw [ff1] at huc
  by_cases hucv : u = cv
  · subst hucv
    exact astar_relax_foldl_row sqrtf g cfg s t u
      (g.edgeCounts u).toNat st2 hwf hw hcvN (le_refl _) hcvC2 hdinv2
      j hj hja htga
  · have huc2 : st2.inClosedSet u = true := huc
    have hucS : st.inClosedSet u = true := by
      have h2 : st2.inClosedSet u = Function.update st.inClosedSet cv true u :=
        rfl
      rw [h2, Function.update_apply, if_neg hucv] at huc2
      exact huc2
    have hr := rall u huN hucS j hj hja htga
    obtain ⟨g1, g2⟩ := ff4 u huc
    have hg2 : st2.gScore u = st.gScore u := rfl
    have hg3 : ∀ v, st2.gScore v = st.gScore v := fun v => rfl
    calc ((List.range (g.edgeCounts cv).toNat).foldl
          (astar_relax sqrtf g cfg t ((cv : Nat) : Int)) st2).gScore
          ((g.edges u j).«to».toNat) ≤
        st2.gScore ((g.edges u j).«to».toNat) := ff3 _
      _ = st.gScore ((g.edges u j).«to».toNat) := hg3 _
      _ ≤ st.gScore u + ((g.edges u j).weight : WithTop ℚ) := hr
      _ = st2.gScore u + ((g.edges u j).weight : WithTop ℚ) := by rw [hg2]
      _ = ((List.range (g.edgeCounts cv).toNat).foldl
          (astar_relax sqrtf g cfg t ((cv : Nat) : Int)) st2).gScore u +
          ((g.edges u j).weight : WithTop ℚ) := by rw [g1]

theorem astar_step_c1 (sqrtf : ℚ → ℚ) (g : Graph) (cfg : AStarConfig)
    (s t : Int) (st : AStarState)
    (hwf : edgesInRange g) (hw : weightsNonneg g)
    (hz : cfg.heuristic = HeuristicType.zero)
    (hs0 : 0 ≤ s) (ht0 : 0 ≤ t)
    (dinv : DInv sqrtf g cfg s t st) (rall : relaxedAll g st)
    (htnc : st.inClosedSet t.toNat = false)
    (hreach : ∃ js, validWalk g s.toNat js ∧ walkEnd g s.toNat js = t.toNat) :
    match astar_step sqrtf g cfg s t st with
    | Sum.inl st1 => DInv sqrtf g cfg s t st1 ∧ relaxedAll g st1 ∧
        st1.inClosedSet t.toNat = false ∧
        st1.closedList.length = st.closedList.length + 1
    | Sum.inr r =>
        r.1.found = true ∧ ∃ c : ℚ, r.1.totalCost = (c : WithTop ℚ) ∧
          (∃ js, validWalk g s.toNat js ∧ walkEnd g s.toNat js = t.toNat ∧
            walkCost g s.toNat js = c) ∧
          (∀ js, validWalk g s.toNat js → walkEnd g s.toNat js = t.toNat →
            c ≤ walkCost g s.toNat js) := by
  unfold astar_step
  cases hpop : pq_pop st.openSet with
  | none =>
    exfalso
    obtain ⟨js, hjs, hend⟩ := hreach
    obtain ⟨hsN, hsact⟩ := validWalk_start g s.toNat js hjs
    have hopen : ∃ v, v < g.nodeCount.toNat ∧ st.inOpenSet v = true := by
      by_cases hsc : st.inClosedSet s.toNat = true
      · exact exists_open_on_walk sqrtf g cfg s t st hwf dinv rall js s.toNat
          hjs hsc (by rw [hend]; exact htnc)
      · rcases dinv.frontier s.toNat hsN
          (by rw [dinv.gs0]; exact WithTop.coe_ne_top) with h2 | h2
        · exact ⟨s.toNat, hsN, h2⟩
        · exact absurd h2 hsc
    obtain ⟨v, hvN, hvo⟩ := hopen
    have hmem := (dinv.base.openSync v hvN).mp hvo
    rw [pq_pop_none_iff] at hpop
    rw [heapIds, hpop] at hmem
    simp at hmem
  | some pr =>
    obtain ⟨c0, f0, os1⟩ := pr
    obtain ⟨hne, hroot, hperm, hcap⟩ := pq_pop_spec st.openSet c0 f0 os1 hpop
    have htlen : 0 < st.openSet.nodes.length := List.length_pos.mpr hne
    have hcmem : c0 ∈ heapIds st := by
      have h1 : pqGet st.openSet.nodes 0 ∈ st.openSet.nodes :=
        pqGet_mem _ _ htlen
      rw [hroot] at h1
      exact List.mem_map_of_mem (fun e => e.nodeId) h1
    obtain ⟨cv, hcvN, hceq⟩ := dinv.base.idsRange c0 hcmem
    subst hceq
    have hrootid : (pqGet st.openSet.nodes 0).nodeId = ((cv : Nat) : Int) := by
      rw [hroot]
    have hopenc : st.inOpenSet cv = true :=
      (dinv.base.openSync cv hcvN).mpr hcmem
    have hclosedc : st.inClosedSet cv = false := by
      cases h2 : st.inClosedSet cv
      · rfl
      · exact absurd ⟨hopenc, h2⟩ (dinv.base.disj cv)
    dsimp only
    simp only [Int.toNat_natCast]
    by_cases hgoal : (((cv : Nat) : Int) == t) = true
    · rw [if_pos hgoal]
      dsimp only
      have hcvt : ((cv : Nat) : Int) = t := by
        exact beq_iff_eq.mp hgoal
      have htv : t.toNat = cv := by
        rw [← hcvt, Int.toNat_natCast]
      have hBall := root_min_g sqrtf g cfg t st hz dinv.base cv hcvN hrootid
        htlen
      have hOpt := pop_opt sqrtf g cfg s t st hwf hw dinv rall cv hcvN
        hclosedc hBall
      have hfin : st.gScore cv ≠ ⊤ := dinv.gOpenFin cv hcvN hopenc
      obtain ⟨ct, hct⟩ : ∃ ct : ℚ, st.gScore cv = (ct : WithTop ℚ) := by
        cases h2 : st.gScore cv with
        | top => exact absurd h2 hfin
        | coe a => exact ⟨a, rfl⟩
      obtain ⟨js0, hjs0, hend0, hcost0⟩ := dinv.gReach cv hcvN ct hct
      have hupper : ∃ js, validWalk g s.toNat js ∧
          walkEnd g s.toNat js = t.toNat ∧ walkCost g s.toNat js = ct :=
        ⟨js0, hjs0, by rw [htv]; exact hend0, hcost0⟩
      have hlower : ∀ js, validWalk g s.toNat js →
          walkEnd g s.toNat js = t.toNat → ct ≤ walkCost g s.toNat js := by
        intro js hjs hend
        have h2 := hOpt js hjs (by rw [hend, htv])
        rw [hct, WithTop.coe_le_coe] at h2
        exact h2
      by_cases hts : t = s
      · subst hts
        rw [reconstruct_path_self]
        exact ⟨rfl, ct, by rw [htv]; exact hct, hupper, hlower⟩
      · have htnN : t.toNat < g.nodeCount.toNat := by rw [htv]; exact hcvN
        have htne : ((t.toNat : Nat) : Int) ≠ s := by
          rw [Int.toNat_of_nonneg ht0]
          exact hts
        obtain ⟨u, hu1, hu2, hu3⟩ := dinv.camDisc t.toNat htnN
          (by rw [htv]; exact hfin) htne
        obtain ⟨m, hm1, hm2⟩ := dinv.reach u hu1 hu3
        have hclN : st.closedList.length ≤ g.nodeCount.toNat :=
          nodupNatList_length_le g.nodeCount.toNat st.closedList
            dinv.closedNodup
            (fun v hv => ((dinv.closedChar v).mp hv).1)
        have hchain : ChainToStart st.cameFrom st.inClosedSet s t.toNat
            (m + 1) := .step t.toNat u m htne hu2 hu3 hm2
        have hwb := walk_back_of_chain st.cameFrom st.inClosedSet s
          g.nodeCount.toNat t.toNat (m + 1) hchain 0 (by omega)
        rw [Int.toNat_of_nonneg ht0] at hwb
        have hwb2 : walk_back st.cameFrom s g.nodeCount.toNat t 0 =
            (s, m + 1) := by
          rw [hwb]
          simp
        rw [reconstruct_path_of_walk_back st.cameFrom st.gScore s t
          g.nodeCount.toNat (m + 1) hwb2]
        exact ⟨rfl, ct, by rw [htv]; exact hct, hupper, hlower⟩
    · rw [if_neg hgoal]
      rw [if_neg (by simp [hclosedc])]
      dsimp only
      have hcvnt : t.toNat ≠ cv := by
        intro h2
        apply hgoal
        rw [beq_iff_eq, ← h2, Int.toNat_of_nonneg ht0]
      have hdinv2 := astar_close_state_dinv sqrtf g cfg s t st f0 os1 cv
        hwf hw hz hcvN hpop dinv rall
      have hcvC2 : Function.update st.inClosedSet cv true cv = true := by
        rw [Function.update_apply, if_pos rfl]
      refine ⟨?_, ?_, ?_, ?_⟩
      · exact astar_relax_foldl_dinv sqrtf g cfg s t cv _ _ hwf hw hcvN
          (le_refl _) hcvC2 hdinv2
      · exact relaxedAll_after_close sqrtf g cfg s t st f0 os1 cv
          hwf hw hz hcvN hpop dinv rall
      · rw [(astar_relax_foldl_frame sqrtf g cfg t ((cv : Nat) : Int)
          _ _).1]
        dsimp only
        rw [Function.update_apply, if_neg hcvnt]
        exact htnc
      · rw [(astar_relax_foldl_frame sqrtf g cfg t ((cv : Nat) : Int)
          _ _).2.1]
        dsimp only
        rw [List.length_append, List.length_singleton]

theorem astar_init_dinv (sqrtf : ℚ → ℚ) (g : Graph) (cfg : AStarConfig)
    (s t : Int) (hs0 : 0 ≤ s) (hs1 : s < g.nodeCount)
    (hsact : (g.nodes s.toNat).active = true) :
    DInv sqrtf g cfg s t (astar_init sqrtf g cfg s t) ∧
    relaxedAll g (astar_init sqrtf g cfg s t) ∧
    (astar_init sqrtf g cfg s t).inClosedSet t.toNat = false ∧
    (astar_init sqrtf g cfg s t).closedList.length = 0 := by
  have hN : 0 < g.nodeCount.toNat := by omega
  have hsN : s.toNat < g.nodeCount.toNat := by omega
  have hbase := astar_init_inv sqrtf g cfg s t hs0 hs1
  rw [astar_init_eq sqrtf g cfg s t hN] at hbase ⊢
  refine ⟨⟨hbase, ?_, ?_, ?_, ?_, ?_, ?_, ?_, ?_, ?_, ?_⟩, ?_, ?_, ?_⟩
  · intro v hv c hc
    dsimp only at hc
    rw [Function.update_apply] at hc
    by_cases hvs : v = s.toNat
    · rw [if_pos hvs] at hc
      rw [← WithTop.coe_zero, WithTop.coe_inj] at hc
      subst hvs
      exact ⟨[], ⟨hsN, hsact⟩, rfl, hc⟩
    · rw [if_neg hvs] at hc
      exact absurd hc.symm WithTop.coe_ne_top
  · intro v hv hvo
    dsimp only at hvo ⊢
    rw [Function.update_apply] at hvo ⊢
    by_cases hvs : v = s.toNat
    · rw [if_pos hvs]
      exact WithTop.coe_ne_top
    · rw [if_neg hvs] at hvo
      cases hvo
  · intro v hv hvc
    cases hvc
  · intro v hv hvc
    cases hvc
  · intro v hv hfin
    dsimp only at hfin ⊢
    rw [Function.update_apply] at hfin
    by_cases hvs : v = s.toNat
    · left
      rw [Function.update_apply, if_pos hvs]
    · rw [if_neg hvs] at hfin
      exact absurd rfl hfin
  · dsimp only
    rw [Function.update_apply, if_pos rfl, WithTop.coe_zero]
  · intro v hv hfin hvs2
    dsimp only at hfin
    rw [Function.update_apply] at hfin
    by_cases hvs : v = s.toNat
    · exact absurd (by rw [hvs, Int.toNat_of_nonneg hs0]) hvs2
    · rw [if_neg hvs] at hfin
      exact absurd rfl hfin
  · intro v
    simp
  · simp
  · intro v hv hvc
    cases hvc
  · intro u hu huc
    cases huc
  · rfl
  · rfl

theorem astar_loop_c1 (sqrtf : ℚ → ℚ) (g : Graph) (cfg : AStarConfig)
    (s t : Int)
    (hwf : edgesInRange g) (hw : weightsNonneg g)
    (hz : cfg.heuristic = HeuristicType.zero)
    (hs0 : 0 ≤ s) (ht0 : 0 ≤ t) :
    ∀ (fuel : Nat) (st : AStarState), DInv sqrtf g cfg s t st →
      relaxedAll g st → st.inClosedSet t.toNat = false →
      (∃ js, validWalk g s.toNat js ∧ walkEnd g s.toNat js = t.toNat) →
      g.nodeCount.toNat + 1 ≤ fuel + st.closedList.length →
      (astar_loop sqrtf g cfg s t fuel st).1.found = true ∧
      ∃ c : ℚ,
        (astar_loop sqrtf g cfg s t fuel st).1.totalCost = (c : WithTop ℚ) ∧
        (∃ js, validWalk g s.toNat js ∧ walkEnd g s.toNat js = t.toNat ∧
          walkCost g s.toNat js = c) ∧
        (∀ js, validWalk g s.toNat js → walkEnd g s.toNat js = t.toNat →
          c ≤ walkCost g s.toNat js) := by
  intro fuel
  induction fuel with
  | zero =>
    intro st dinv rall htnc hreach hfuel
    exfalso
    have h2 : st.closedList.length ≤ g.nodeCount.toNat :=
      nodupNatList_length_le g.nodeCount.toNat st.closedList dinv.closedNodup
        (fun v hv => ((dinv.closedChar v).mp hv).1)
    omega
  | succ m ih =>
    intro st dinv rall htnc hreach hfuel
    have h2 := astar_step_c1 sqrtf g cfg s t st hwf hw hz hs0 ht0 dinv rall
      htnc hreach
    rw [astar_loop]
    cases hstep : astar_step sqrtf g cfg s t st with
    | inl st1 =>
      rw [hstep] at h2
      obtain ⟨d2, r2, t2, l2⟩ := h2
      exact ih st1 d2 r2 t2 hreach (by omega)
    | inr r =>
      rw [hstep] at h2
      exact h2

/-- C1: with the Zero heuristic kind, for a well-formed graph
(stored edges of in-range rows point in range; weights nonnegative, the
spec's Edge data invariant), an in-range active start and goal, and a
directed walk of active stored edges through active nodes from start to
goal, astar_find_path returns found = true and a finite totalCost that
is attained by such a walk and is a lower bound of the cost of every
such walk — i.e. totalCost is the minimum total edge weight over all
directed paths from s to t through active nodes and edges. -/
theorem C1_zero_heuristic_optimal (sqrtf : ℚ → ℚ) (g : Graph)
    (config : Option AStarConfig) (s t : Int)
    (hwf : edgesInRange g) (hw : weightsNonneg g)
    (hz : (config.getD astar_default_config).heuristic = HeuristicType.zero)
    (hs0 : 0 ≤ s) (hs1 : s < g.nodeCount) (ht0 : 0 ≤ t)
    (ht1 : t < g.nodeCount)
    (hsact : (g.nodes s.toNat).active = true)
    (htact : (g.nodes t.toNat).active = true)
    (hreach : ∃ js, validWalk g s.toNat js ∧ walkEnd g s.toNat js = t.toNat) :
    (astar_find_path sqrtf g s t config).1.found = true ∧
    ∃ c : ℚ,
      (astar_find_path sqrtf g s t config).1.totalCost = (c : WithTop ℚ) ∧
      (∃ js, validWalk g s.toNat js ∧ walkEnd g s.toNat js = t.toNat ∧
        walkCost g s.toNat js = c) ∧
      (∀ js, validWalk g s.toNat js → walkEnd g s.toNat js = t.toNat →
        c ≤ walkCost g s.toNat js) := by
  have hguard : ¬(s < 0 ∨ t < 0 ∨ g.nodeCount ≤ s ∨ g.nodeCount ≤ t) := by
    push_neg
    exact ⟨by omega, by omega, by omega, by omega⟩
  obtain ⟨d0, r0, t0, l0⟩ := astar_init_dinv sqrtf g
    (config.getD astar_default_config) s t hs0 hs1 hsact
  have h2 := astar_loop_c1 sqrtf g (config.getD astar_default_config) s t
    hwf hw hz hs0 ht0 (g.nodeCount.toNat + 1)
    (astar_init sqrtf g (config.getD astar_default_config) s t)
    d0 r0 t0 hreach (by omega)
  unfold astar_find_path
  rw [if_neg hguard]
  exact h2

theorem C1_zero_heuristic_optimal_witness :
    edgesInRange exGraphABEdge ∧ weightsNonneg exGraphABEdge ∧
    ((some ⟨HeuristicType.zero, 1, true⟩ : Option AStarConfig).getD
      astar_default_config).heuristic = HeuristicType.zero ∧
    (0 : Int) ≤ 0 ∧ (0 : Int) < exGraphABEdge.nodeCount ∧
    (0 : Int) ≤ 1 ∧ (1 : Int) < exGraphABEdge.nodeCount ∧
    (exGraphABEdge.nodes (0 : Int).toNat).active = true ∧
    (exGraphABEdge.nodes (1 : Int).toNat).active = true ∧
    (∃ js, validWalk exGraphABEdge (0 : Int).toNat js ∧
      walkEnd exGraphABEdge (0 : Int).toNat js = (1 : Int).toNat) ∧
    ((astar_find_path id exGraphABEdge 0 1
        (some ⟨HeuristicType.zero, 1, true⟩)).1.found = true ∧
      ∃ c : ℚ,
        (astar_find_path id exGraphABEdge 0 1
          (some ⟨HeuristicType.zero, 1, true⟩)).1.totalCost =
            (c : WithTop ℚ) ∧
        (∃ js, validWalk exGraphABEdge (0 : Int).toNat js ∧
          walkEnd exGraphABEdge (0 : Int).toNat js = (1 : Int).toNat ∧
          walkCost exGraphABEdge (0 : Int).toNat js = c) ∧
        (∀ js, validWalk exGraphABEdge (0 : Int).toNat js →
          walkEnd exGraphABEdge (0 : Int).toNat js = (1 : Int).toNat →
          c ≤ walkCost exGraphABEdge (0 : Int).toNat js)) := by
  have hwf : edgesInRange exGraphABEdge := by
    intro i j hi hj
    have h0 : exGraphABEdge.nodeCount.toNat = 2 := by with_unfolding_all decide
    rw [h0] at hi
    interval_cases i
    · have h1 : (exGraphABEdge.edgeCounts 0).toNat = 1 := by
        with_unfolding_all decide
      rw [h1] at hj
      interval_cases j
      · with_unfolding_all decide
    · have h1 : (exGraphABEdge.edgeCounts 1).toNat = 0 := by
        with_unfolding_all decide
      omega
  have hw : weightsNonneg exGraphABEdge := by
    intro i j hi hj
    have h0 : exGraphABEdge.nodeCount.toNat = 2 := by with_unfolding_all decide
    rw [h0] at hi
    interval_cases i
    · have h1 : (exGraphABEdge.edgeCounts 0).toNat = 1 := by
        with_unfolding_all decide
      rw [h1] at hj
      interval_cases j
      · with_unfolding_all decide
    · have h1 : (exGraphABEdge.edgeCounts 1).toNat = 0 := by
        with_unfolding_all decide
      omega
  have hreach : ∃ js, validWalk exGraphABEdge (0 : Int).toNat js ∧
      walkEnd exGraphABEdge (0 : Int).toNat js = (1 : Int).toNat := by
    refine ⟨[0], ⟨?_, ?_, ?_, ?_, ?_, ?_⟩, ?_⟩
    · with_unfolding_all decide
    · with_unfolding_all decide
    · with_unfolding_all decide
    · with_unfolding_all decide
    · with_unfolding_all decide
    · with_unfolding_all decide
    · with_unfolding_all decide
  refine ⟨hwf, hw, rfl, le_refl _, by with_unfolding_all decide,
    by with_unfolding_all decide, by with_unfolding_all decide,
    by with_unfolding_all decide, by with_unfolding_all decide, hreach, ?_⟩
  exact C1_zero_heuristic_optimal id exGraphABEdge
    (some ⟨HeuristicType.zero, 1, true⟩) 0 1 hwf hw rfl (le_refl _)
    (by with_unfolding_all decide) (by with_unfolding_all decide)
    (by with_unfolding_all decide) (by with_unfolding_all decide)
    (by with_unfolding_all decide) hreach
